import Mathlib

/-!
Verification development for the declarative-region analyzer of a VHDL
semantic analyzer (files `src/vhdl_lang/src/analysis/{declarative,
expression, sequential, package_instance, named_entity/design}.rs`).

The development shallowly embeds the slices of the analyzer that the
claims under scrutiny are about:

* the type model and the `TypeMatcher` (expression.rs),
* the operator-overload disambiguation pipeline `disambiguate_op`,
* the bidirectional expression typer (`expr_type` / `expr_pos_with_ttyp`)
  restricted to the expression forms the claims quantify over
  (literals, unary and binary operator applications, and names, the
  latter resolved through an oracle because the name resolver is an
  external collaborator that is not part of the analyzed sources),
* `boolean_expr` and `implicit_bool_types`,
* the sequential-statement analyzer's return-statement handling,
* the package instantiator (`instantiate`, `map_kind`, `map_type_ent`
  and companions),
* the declarative-part analyzer's two-pass handling of incomplete types.

Entities are modelled per module at the granularity the claims need.
General recursion in the source (expression trees of unbounded operand
lists, entity graphs) is embedded with an explicit recursion-depth
argument (`fuel`); every theorem is stated for arbitrary sufficient fuel,
and running out of fuel yields the analyzer's non-fatal unknown result.

Functions of the repository that are only *called* by the analyzed files
but whose definitions are not part of them (the entity arena, the
scope/region store, `base_type`, the type-classification predicates and
`analyze_literal_with_target_type`) are modelled from the specification;
each such definition carries a doc comment saying so.
-/

namespace Vhdl

/-! ## Type model (named_entity; classification predicates per spec 4.C) -/

/-- Kinds of the `Type` variants that classification dispatches on
(`Type::Integer`, `Type::Real`, `Type::Universal(..)`, ...). -/
inductive TyKind where
  | integer
  | real
  | physical
  | enum
  | array
  | record
  | access
  | file
  | universalInt
  | universalReal
  | protectedTy
  | incomplete
  | interface
  | subtypeTy
  | aliasTy
deriving DecidableEq

/-- A base type: a type entity that is its own base (`BaseType`).
Entity equality in the source is reference equality of arena entities;
here a base type is identified by its entity id together with the kind
stored in the arena for that id. -/
structure BaseTy where
  id : Nat
  kind : TyKind
deriving DecidableEq

/-- A type entity (`TypeEnt`): an entity id, its kind, and its base type
(the result of peeling `Subtype`/`Alias`, spec 4.C `base_type()`). -/
structure TypeEnt where
  id : Nat
  kind : TyKind
  base : BaseTy
deriving DecidableEq

/-- View a base type as a type entity (Rust `BaseType → TypeEnt` coercion);
its base is itself. -/
def TypeEnt.ofBase (b : BaseTy) : TypeEnt := ⟨b.id, b.kind, b⟩

/-- Modelled from the spec: `is_any_integer` (named_entity types, not under
src/): an integer-classified type is `Integer` or universal integer. -/
def BaseTy.is_any_integer (t : BaseTy) : Bool :=
  t.kind == TyKind.integer || t.kind == TyKind.universalInt

/-- Modelled from the spec: `is_any_real`: a real-classified type is `Real`
or universal real. -/
def BaseTy.is_any_real (t : BaseTy) : Bool :=
  t.kind == TyKind.real || t.kind == TyKind.universalReal

/-- Modelled from the spec: `is_composite` (spec 4.C): arrays and records. -/
def BaseTy.is_composite (t : BaseTy) : Bool :=
  t.kind == TyKind.array || t.kind == TyKind.record

/-- Modelled from the spec: `is_access`. -/
def BaseTy.is_access (t : BaseTy) : Bool :=
  t.kind == TyKind.access

/-- Modelled from the spec: `is_compatible_with_string_literal`; modelled
coarsely as the array-kinded base types (the source refines this to
one-dimensional arrays of character-like element type; no claim depends on
the refinement). -/
def BaseTy.is_compatible_with_string_literal (t : BaseTy) : Bool :=
  t.kind == TyKind.array

/-! ## Designators and operators (ast) -/

/-- The operator symbols used by the embedded slice.  `queEQ` .. `queLTE`
are the matching relational operators `?=`, `?/=`, `?<`, `?<=`, `?>`,
`?>=`; `queQue` is the implicit-boolean conversion operator `??`. -/
inductive Operator where
  | andOp
  | plus
  | minus
  | eqOp
  | neOp
  | queEQ
  | queNE
  | queGT
  | queGTE
  | queLT
  | queLTE
  | queQue
deriving DecidableEq

/-- Designators: simple identifiers (symbols are numbered), operator
symbols and character literals. -/
inductive Designator where
  | ident (sym : Nat)
  | opSym (op : Operator)
  | character (c : Char)
deriving DecidableEq

/-- `can_handle` (expression.rs): the analyzer skips the matching
relational operators it does not handle yet. -/
def can_handle (op : Operator) : Bool :=
  !(op == Operator.queEQ || op == Operator.queNE || op == Operator.queGT ||
    op == Operator.queGTE || op == Operator.queLT || op == Operator.queLTE)

/-! ## ExpressionType and the TypeMatcher (expression.rs) -/

/-- `ExpressionType`: the result of forward typing an expression.  The
ambiguous set is a hash set in the source; it is modelled as a
duplicate-free list whose order stands in for the (unspecified) hash-set
iteration order. -/
inductive ExpressionType where
  | unambiguous (typ : TypeEnt)
  | ambiguous (types : List BaseTy)
  | stringLit
  | nullLit
  | aggregate
deriving DecidableEq

/-- `ExpressionType::match_type`. -/
def match_type (types : ExpressionType) (other : BaseTy) : Bool :=
  match types with
  | ExpressionType.unambiguous typ => typ.base == other
  | ExpressionType.ambiguous ts => ts.contains other
  | ExpressionType.stringLit => other.is_compatible_with_string_literal
  | ExpressionType.nullLit => other.is_access
  | ExpressionType.aggregate => other.is_composite

/-- An overloaded entity (`OverloadedEnt`) as the operator-resolution code
sees it: the formal parameters are represented by their type marks
(`formals().nth(idx)` followed by `.type_mark()`; `nth_base idx` is the
base of the idx-th entry) and the optional return type. -/
structure OverloadedEnt where
  formals : List TypeEnt
  ret : Option TypeEnt
deriving DecidableEq

/-- Stand-in value for the `unwrap()` of a return type; unreachable for
candidates produced by `lookup_operator`, which filters out entities
without a return type. -/
def unreachableTy : TypeEnt := TypeEnt.ofBase ⟨0, TyKind.integer⟩

/-- `return_type().unwrap().base()` of a candidate. -/
def OverloadedEnt.retBase (e : OverloadedEnt) : BaseTy :=
  (e.ret.getD unreachableTy).base

/-- `NamedEntities` (region): a designator denotes either a single entity
(identified by its id; only its identity matters to the embedded slice)
or an overloaded set. -/
inductive NamedEntities where
  | single (id : Nat)
  | overloaded (ents : List OverloadedEnt)
deriving DecidableEq

/-- A scope as the expression typer consumes it: designator lookup
yielding the visible named entities, `none` when the designator is not
declared.  The scope chain and visibility rules live outside the analyzed
sources; only the lookup interface is needed here. -/
abbrev Scope := Designator → Option NamedEntities

/-- `DisambiguatedType` (overloaded): result of forward-typing a name. -/
inductive DisambiguatedType where
  | unambiguous (t : TypeEnt)
  | ambiguous (ts : List BaseTy)
deriving DecidableEq

/-- `Disambiguated`: result of `disambiguate_op`. -/
inductive Disambiguated where
  | unambiguous (ent : OverloadedEnt)
  | ambiguous (ents : List OverloadedEnt)
deriving DecidableEq

/-- `From<DisambiguatedType> for ExpressionType`. -/
def ExpressionType.fromDisamb : DisambiguatedType → ExpressionType
  | DisambiguatedType.unambiguous t => ExpressionType.unambiguous t
  | DisambiguatedType.ambiguous ts => ExpressionType.ambiguous ts

/-- The diagnostics the embedded slice can emit.  Source positions and
message strings are abstracted into one constructor per distinct message,
carrying the payloads the messages interpolate. -/
inductive Diag where
  | notDeclared (d : Designator)
  | operatorNonOverloaded (op : Operator)
  | foundNoMatch (op : Operator)
  | typeMismatch (found : TypeEnt) (target : TypeEnt)
  | ambiguousOp (op : Operator) (cands : List OverloadedEnt)
  | notImplicitlyBool (t : TypeEnt)
  | ambiguousImplicitBool (cands : List BaseTy)
  | cannotDisambiguateToBool (cands : List BaseTy)
  | functionsCannotReturnWithoutValue
  | proceduresCannotReturnValue
  | cannotReturnFromProcess
deriving DecidableEq

/-- The predefined-type provider together with the external collaborators
of the expression typer (spec section 6): `universal_integer()`,
`universal_real()`, `boolean()`, and the name-resolution entry points
(`expression_name_types`, `expression_name_with_ttyp`) used by
`expr_pos_type` / `expr_pos_with_ttyp`, which live outside the analyzed
sources and are therefore oracles of the context. -/
structure AnalyzeContext where
  universal_integer : BaseTy
  universal_real : BaseTy
  booleanTy : TypeEnt
  name_types : Scope → Nat → Option DisambiguatedType × List Diag
  name_with_ttyp : Scope → Nat → TypeEnt → List Diag

/-- `TypeMatcher::is_possible`: is the expression type possible given the
target base type?  `implicit` is the matcher's
`implicit_type_conversion` flag. -/
def is_possible (implicit : Bool) (ctx : AnalyzeContext)
    (types : ExpressionType) (ttyp : BaseTy) : Bool :=
  if match_type types ttyp then
    true
  else if implicit then
    match ttyp.kind with
    | TyKind.integer => match_type types ctx.universal_integer
    | TyKind.real => match_type types ctx.universal_real
    | TyKind.universalInt =>
      match types with
      | ExpressionType.unambiguous typ => typ.base.is_any_integer
      | ExpressionType.ambiguous ts => ts.any (fun typ => typ.is_any_integer)
      | _ => false
    | TyKind.universalReal =>
      match types with
      | ExpressionType.unambiguous typ => typ.base.is_any_real
      | ExpressionType.ambiguous ts => ts.any (fun typ => typ.is_any_real)
      | _ => false
    | _ => false
  else
    false

/-- `TypeMatcher::can_be_target_type`. -/
def can_be_target_type (implicit : Bool) (ctx : AnalyzeContext)
    (typ : TypeEnt) (ttyp : BaseTy) : Bool :=
  is_possible implicit ctx (ExpressionType.unambiguous typ) ttyp

/-- One candidate's argument check inside
`TypeMatcher::disambiguate_op_by_arguments`: every operand's expression
type must be possible for the candidate's formal base type at the same
position (`ent.nth_base(idx).unwrap()`; the unwrap cannot fail for
candidates whose arity was matched by `lookup_operator`). -/
def args_possible (implicit : Bool) (ctx : AnalyzeContext) :
    List ExpressionType → List TypeEnt → Bool
  | [], _ => true
  | _ :: _, [] => false
  | et :: ets, f :: fs =>
    is_possible implicit ctx et f.base && args_possible implicit ctx ets fs

/-- `TypeMatcher::disambiguate_op_by_arguments`: retain the candidates
whose formals are possible for the operand types. -/
def disambiguate_op_by_arguments (implicit : Bool) (ctx : AnalyzeContext)
    (candidates : List OverloadedEnt) (operand_types : List ExpressionType) :
    List OverloadedEnt :=
  candidates.filter (fun ent => args_possible implicit ctx operand_types ent.formals)

/-- `TypeMatcher::disambiguate_op_by_return_type`: with a target type
constraint, retain the candidates whose return type can serve as the
target. -/
def disambiguate_op_by_return_type (implicit : Bool) (ctx : AnalyzeContext)
    (candidates : List OverloadedEnt) (ttyp : Option TypeEnt) :
    List OverloadedEnt :=
  match ttyp.map TypeEnt.base with
  | some tbase =>
    candidates.filter (fun ent =>
      can_be_target_type implicit ctx (ent.ret.getD unreachableTy) tbase)
  | none => candidates

/-- `as_universal` (expression.rs): the universal counterpart of an
integer/real base type. -/
def as_universal (ctx : AnalyzeContext) (typ : BaseTy) : Option BaseTy :=
  match typ.kind with
  | TyKind.integer => some ctx.universal_integer
  | TyKind.real => some ctx.universal_real
  | _ => none

/-- Duplicate-free list standing in for collecting into a hash set,
keeping the first occurrence of each element. -/
def dedupFirst {α : Type} [DecidableEq α] : List α → List α
  | [] => []
  | a :: l => a :: (dedupFirst l).filter (fun x => !(x == a))

/-- The set of return base types of the remaining candidates
(`candidates.iter().map(|c| c.return_type().unwrap().base()).collect()`). -/
def returnBases (candidates : List OverloadedEnt) : List BaseTy :=
  dedupFirst (candidates.map OverloadedEnt.retBase)

/-! The candidate evolution of `disambiguate_op` (expression.rs lines
299-355), split into its sequential stages. -/

/-- Stage: initial argument filter with implicit casts
(`if candidates.len() > 1 { matcher().disambiguate_op_by_arguments }`). -/
def stage_args (ctx : AnalyzeContext) (operand_types : List ExpressionType)
    (c : List OverloadedEnt) : List OverloadedEnt :=
  if 1 < c.length then disambiguate_op_by_arguments true ctx c operand_types else c

/-- Stage: return-type filter with implicit casts, only when a target type
is given (`if candidates.len() > 1 && ttyp.is_some()`). -/
def stage_ret (ctx : AnalyzeContext) (ttyp : Option TypeEnt)
    (c : List OverloadedEnt) : List OverloadedEnt :=
  if 1 < c.length && ttyp.isSome then
    disambiguate_op_by_return_type true ctx c ttyp
  else c

/-- Stage: when several candidates remain but they all share a single
return base type, re-run the argument filter with implicit universal
casts disabled. -/
def stage_no_implicit_args (ctx : AnalyzeContext)
    (operand_types : List ExpressionType) (c : List OverloadedEnt) :
    List OverloadedEnt :=
  if 1 < c.length then
    if (returnBases c).length == 1 then
      disambiguate_op_by_arguments false ctx c operand_types
    else c
  else c

/-- Stage: when several candidates still remain: with a target type,
re-run the return filter without implicit casts; without a target type,
drop each candidate whose return base is an integer/real whose universal
counterpart is among the candidates' return bases. -/
def stage_universal (ctx : AnalyzeContext) (ttyp : Option TypeEnt)
    (c : List OverloadedEnt) : List OverloadedEnt :=
  if 1 < c.length then
    match ttyp with
    | some _ => disambiguate_op_by_return_type false ctx c ttyp
    | none =>
      c.filter (fun cand =>
        match as_universal ctx cand.retBase with
        | some univ => !((returnBases c).contains univ)
        | none => true)
  else c

/-- Stage: if the filters ruled out every candidate but the argument
filter without implicit casts leaves exactly one of the original
candidates, restore it. -/
def stage_restore (ctx : AnalyzeContext) (overloaded : List OverloadedEnt)
    (operand_types : List ExpressionType) (c : List OverloadedEnt) :
    List OverloadedEnt :=
  if c.isEmpty then
    let cands := disambiguate_op_by_arguments false ctx overloaded operand_types
    if cands.length == 1 then cands else c
  else c

/-- The complete candidate evolution of `disambiguate_op` given the
already-computed operand expression types. -/
def disambiguate_op_candidates (ctx : AnalyzeContext) (ttyp : Option TypeEnt)
    (overloaded : List OverloadedEnt) (operand_types : List ExpressionType) :
    List OverloadedEnt :=
  stage_restore ctx overloaded operand_types
    (stage_universal ctx ttyp
      (stage_no_implicit_args ctx operand_types
        (stage_ret ctx ttyp
          (stage_args ctx operand_types overloaded))))

/-! ## Expression AST and the bidirectional typer (expression.rs) -/

/-- The literal forms the claims quantify over (`Literal::AbstractLiteral`
integer and real, and `Literal::Null`); the literal's value is irrelevant
to typing and kept abstract. -/
inductive Literal where
  | intLit (value : Nat)
  | realLit (value : Nat)
  | nullLit
deriving DecidableEq

/-- An operator occurrence (`WithPos<WithRef<Operator>>`): the operator
symbol and the mutable AST reference slot.  In the source the slot holds
an entity id resolved through the arena; here it directly holds the
referenced overloaded entity when set. -/
structure OpWithRef where
  op : Operator
  ref : Option OverloadedEnt
deriving DecidableEq

/-- The expression sublanguage the claims quantify over: operator
applications, names (resolved by the external name resolver) and
literals.  Aggregates, qualified expressions and allocators are omitted;
no claim mentions them. -/
inductive Expr where
  | binary (op : OpWithRef) (l r : Expr)
  | unary (op : OpWithRef) (e : Expr)
  | name (n : Nat)
  | literal (lit : Literal)
deriving DecidableEq

/-- Modelled from the spec: `analyze_literal_with_target_type` (literals
analysis, not under src/).  Per the spec's literal rules and round-trip
property (sections 4.E and 8): an integer literal is universal and
satisfies any integer target (and, being a universal numeric, any real
target); a real literal satisfies any real target; a null literal matches
any access type; any other target yields a type-mismatch diagnostic. -/
def analyze_literal_with_target_type (ctx : AnalyzeContext)
    (target_type : TypeEnt) (lit : Literal) : List Diag :=
  match lit with
  | Literal.intLit _ =>
    if target_type.base.is_any_integer || target_type.base.is_any_real then []
    else [Diag.typeMismatch (TypeEnt.ofBase ctx.universal_integer) target_type]
  | Literal.realLit _ =>
    if target_type.base.is_any_real then []
    else [Diag.typeMismatch (TypeEnt.ofBase ctx.universal_real) target_type]
  | Literal.nullLit =>
    if target_type.base.is_access then []
    else [Diag.typeMismatch (TypeEnt.ofBase target_type.base) target_type]

/-- `lookup_operator` (expression.rs): look the operator symbol up in the
scope and keep the candidates matching the arity that have a return
type. -/
def lookup_operator (scope : Scope) (op : Operator) (arity : Nat) :
    Except Diag (List OverloadedEnt) :=
  match scope (Designator.opSym op) with
  | none => Except.error (Diag.notDeclared (Designator.opSym op))
  | some (NamedEntities.single _) => Except.error (Diag.operatorNonOverloaded op)
  | some (NamedEntities.overloaded ents) =>
    let op_candidates :=
      ents.filter (fun ent => ent.formals.length == arity && ent.ret.isSome)
    if op_candidates.isEmpty then Except.error (Diag.foundNoMatch op)
    else Except.ok op_candidates

mutual

/-- `expr_type` / `expr_pos_type` (expression.rs): forward typing.  The
first component is the analysis result (`none` is `EvalError::Unknown`),
the second the diagnostics pushed to the sink.  The first argument
bounds the recursion depth; exhausting it yields the unknown result. -/
def expr_type : Nat → AnalyzeContext → Scope → Expr →
    Option ExpressionType × List Diag
  | 0, _, _, _ => (none, [])
  | fuel+1, ctx, scope, e =>
    match e with
    | Expr.binary op l r => operator_type fuel ctx scope op [l, r]
    | Expr.unary op e1 => operator_type fuel ctx scope op [e1]
    | Expr.name n =>
      match ctx.name_types scope n with
      | (some dt, ds) => (some (ExpressionType.fromDisamb dt), ds)
      | (none, ds) => (none, ds)
    | Expr.literal lit =>
      match lit with
      | Literal.intLit _ =>
        (some (ExpressionType.unambiguous (TypeEnt.ofBase ctx.universal_integer)), [])
      | Literal.realLit _ =>
        (some (ExpressionType.unambiguous (TypeEnt.ofBase ctx.universal_real)), [])
      | Literal.nullLit => (some ExpressionType.nullLit, [])

/-- `operator_type` (expression.rs): forward typing of an operator
application.  Operators not handled yet (`can_handle`) yield the unknown
result before any lookup. -/
def operator_type : Nat → AnalyzeContext → Scope → OpWithRef → List Expr →
    Option ExpressionType × List Diag
  | 0, _, _, _, _ => (none, [])
  | fuel+1, ctx, scope, op, exprs =>
    if !(can_handle op.op) then (none, [])
    else
      match lookup_operator scope op.op exprs.length with
      | Except.error d => (none, [d])
      | Except.ok op_candidates =>
        match disambiguate_op fuel ctx scope none op op_candidates exprs with
        | (some (Disambiguated.unambiguous ent), ds) =>
          (some (ExpressionType.unambiguous (ent.ret.getD unreachableTy)), ds)
        | (some (Disambiguated.ambiguous ents), ds) =>
          (some (ExpressionType.ambiguous
            (dedupFirst (ents.map OverloadedEnt.retBase))), ds)
        | (none, ds) => (none, ds)

/-- `operand_types` (expression.rs): forward-type every operand into a
local diagnostic buffer; on the first unknown operand the buffered
diagnostics are surfaced and the whole call bails; on overall success the
buffered diagnostics are discarded (the second component here is the
local buffer; see `operand_types_result`). -/
def operand_types_aux : Nat → AnalyzeContext → Scope → List Expr →
    Option (List ExpressionType) × List Diag
  | 0, _, _, _ => (none, [])
  | _+1, _, _, [] => (some [], [])
  | fuel+1, ctx, scope, e :: es =>
    match expr_type fuel ctx scope e with
    | (some t, eds) =>
      match operand_types_aux fuel ctx scope es with
      | (some ts, ds) => (some (t :: ts), eds ++ ds)
      | (none, ds) => (none, eds ++ ds)
    | (none, eds) => (none, eds)

/-- `check_op` (expression.rs): after an unambiguous resolution, record
the reference on the operator AST slot and backward-type each operand
against the corresponding formal's type mark (the slot write has no
further effect within a single analysis and is not materialized). -/
def check_op_args : Nat → AnalyzeContext → Scope → List Expr → List TypeEnt →
    List Diag
  | 0, _, _, _, _ => []
  | _+1, _, _, [], _ => []
  | _+1, _, _, _ :: _, [] => []
  | fuel+1, ctx, scope, e :: es, f :: fs =>
    expr_with_ttyp fuel ctx scope f e ++ check_op_args fuel ctx scope es fs

/-- `disambiguate_op` (expression.rs): resolve an operator application,
optionally against a target type. -/
def disambiguate_op : Nat → AnalyzeContext → Scope → Option TypeEnt →
    OpWithRef → List OverloadedEnt → List Expr →
    Option Disambiguated × List Diag
  | 0, _, _, _, _, _, _ => (none, [])
  | fuel+1, ctx, scope, ttyp, op, overloaded, exprs =>
    match op.ref with
    | some ent => (some (Disambiguated.unambiguous ent), [])
    | none =>
      match operand_types_aux fuel ctx scope exprs with
      | (none, ds) => (none, ds)
      | (some ots, _) =>
        match disambiguate_op_candidates ctx ttyp overloaded ots with
        | [] => (none, [Diag.foundNoMatch op.op])
        | [ent] =>
          (some (Disambiguated.unambiguous ent), check_op_args fuel ctx scope exprs ent.formals)
        | cands => (some (Disambiguated.ambiguous cands), [])

/-- `expr_with_ttyp` / `expr_pos_with_ttyp` (expression.rs): backward
typing against a target type; returns the diagnostics pushed. -/
def expr_with_ttyp : Nat → AnalyzeContext → Scope → TypeEnt → Expr → List Diag
  | 0, _, _, _, _ => []
  | fuel+1, ctx, scope, target_type, e =>
    match e with
    | Expr.literal lit => analyze_literal_with_target_type ctx target_type lit
    | Expr.name n => ctx.name_with_ttyp scope n target_type
    | Expr.binary op l r =>
      if can_handle op.op then
        match lookup_operator scope op.op 2 with
        | Except.error d => [d]
        | Except.ok op_candidates =>
          match disambiguate_op fuel ctx scope (some target_type) op op_candidates [l, r] with
          | (some (Disambiguated.unambiguous ent), ds) =>
            let op_type := ent.ret.getD unreachableTy
            if !(can_be_target_type true ctx op_type target_type.base) then
              ds ++ [Diag.typeMismatch op_type target_type]
            else ds
          | (some (Disambiguated.ambiguous cands), ds) =>
            ds ++ [Diag.ambiguousOp op.op cands]
          | (none, ds) => ds
      else
        (expr_type fuel ctx scope l).2 ++ (expr_type fuel ctx scope r).2
    | Expr.unary op e1 =>
      match lookup_operator scope op.op 1 with
      | Except.error d => [d]
      | Except.ok op_candidates =>
        match disambiguate_op fuel ctx scope (some target_type) op op_candidates [e1] with
        | (some (Disambiguated.unambiguous ent), ds) =>
          let op_type := ent.ret.getD unreachableTy
          if !(can_be_target_type true ctx op_type target_type.base) then
            ds ++ [Diag.typeMismatch op_type target_type]
          else ds
        | (some (Disambiguated.ambiguous cands), ds) =>
          ds ++ [Diag.ambiguousOp op.op cands]
        | (none, ds) => ds

end

/-- `expr_unknown_ttyp` / `expr_pos_unknown_ttyp`: analyze an expression
without a known target type, keeping only the diagnostics. -/
def expr_unknown_ttyp (fuel : Nat) (ctx : AnalyzeContext) (scope : Scope)
    (e : Expr) : List Diag :=
  (expr_type fuel ctx scope e).2

/-- `operand_types` as its callers observe it: the local diagnostics of
successfully typed operands are discarded on success and surfaced on
failure. -/
def operand_types_result (fuel : Nat) (ctx : AnalyzeContext) (scope : Scope)
    (exprs : List Expr) : Option (List ExpressionType) × List Diag :=
  match operand_types_aux fuel ctx scope exprs with
  | (some ts, _) => (some ts, [])
  | (none, ds) => (none, ds)

/-- `implicit_bool_types` (expression.rs): the first-argument base types
of the visible `??` operators. -/
def implicit_bool_types (scope : Scope) : List BaseTy :=
  match scope (Designator.opSym Operator.queQue) with
  | some (NamedEntities.overloaded ents) =>
    dedupFirst (ents.filterMap (fun ent => ent.formals.head?.map TypeEnt.base))
  | _ => []

/-- `boolean_expr` (expression.rs): an expression that is either boolean
or implicitly boolean via the `??` operator. -/
def boolean_expr (fuel : Nat) (ctx : AnalyzeContext) (scope : Scope)
    (e : Expr) : List Diag :=
  match expr_type fuel ctx scope e with
  | (none, ds) => ds
  | (some types, ds) =>
    ds ++
    match types with
    | ExpressionType.unambiguous typ =>
      if !(typ.base == ctx.booleanTy.base) then
        let implicit_bools := implicit_bool_types scope
        if !(implicit_bools.contains typ.base) then [Diag.notImplicitlyBool typ]
        else []
      else []
    | ExpressionType.ambiguous types =>
      if types.contains ctx.booleanTy.base then
        expr_with_ttyp fuel ctx scope ctx.booleanTy e
      else
        let implicitBools :=
          (implicit_bool_types scope).filter (fun t => types.contains t)
        match compare implicitBools.length 1 with
        | Ordering.eq =>
          match types with
          | typ :: _ => expr_with_ttyp fuel ctx scope (TypeEnt.ofBase typ) e
          | [] => []
        | Ordering.gt => [Diag.ambiguousImplicitBool implicitBools]
        | Ordering.lt => [Diag.cannotDisambiguateToBool types]
    | ExpressionType.stringLit => expr_with_ttyp fuel ctx scope ctx.booleanTy e
    | ExpressionType.nullLit => expr_with_ttyp fuel ctx scope ctx.booleanTy e
    | ExpressionType.aggregate => expr_with_ttyp fuel ctx scope ctx.booleanTy e

/-! ## Sequential statements (sequential.rs) -/

/-- `SequentialRoot` (sequential.rs). -/
inductive SequentialRoot where
  | process
  | procedure
  | function (returnType : TypeEnt)
  | unknown

/-- The sequential statements the claims quantify over: return statements
(with an optional expression) and the null statement.  Statement labels
and the remaining statement forms delegate to collaborators no claim
mentions. -/
inductive SequentialStatement where
  | ret (expression : Option Expr)
  | nullStmt

/-- `analyze_sequential_statement` (sequential.rs), restricted to the
embedded statement forms; returns the diagnostics pushed. -/
def analyze_sequential_statement (fuel : Nat) (ctx : AnalyzeContext)
    (scope : Scope) (sroot : SequentialRoot) (statement : SequentialStatement) :
    List Diag :=
  match statement with
  | SequentialStatement.ret expression =>
    match sroot with
    | SequentialRoot.function ttyp =>
      match expression with
      | some e => expr_with_ttyp fuel ctx scope ttyp e
      | none => [Diag.functionsCannotReturnWithoutValue]
    | SequentialRoot.procedure =>
      match expression with
      | some _ => [Diag.proceduresCannotReturnValue]
      | none => []
    | SequentialRoot.process => [Diag.cannotReturnFromProcess]
    | SequentialRoot.unknown =>
      match expression with
      | some e => expr_unknown_ttyp fuel ctx scope e
      | none => []
  | SequentialStatement.nullStmt => []

/-! ## Package instantiation (package_instance.rs)

The instantiator deep-copies an entity graph.  `map_type_ent` never
recurses into the referenced type entity — a type reference is looked up
in the formal-to-actual mapping by entity id and either replaced by the
actual or passed through — so the graph walked by `instantiate` is the
tree of the entity's kind payloads and implicit children.  Entities are
modelled as such trees (`PEnt`); shared references in the arena appear as
equal subtrees, which is faithful because `instantiate` re-instantiates
every reference it recurses into.  Fresh arena ids are threaded
explicitly (`nextId`). -/

/-- Object classes (`ObjectClass`). -/
inductive PObjectClass where
  | signal
  | variableClass
  | constant
  | sharedVariable

/-- Object modes (`Mode`). -/
inductive PMode where
  | inMode
  | outMode
  | inoutMode
  | bufferMode
  | linkage

/-- `UniversalType`. -/
inductive PUniversalType where
  | integer
  | real

/-- Region kinds (the tag distinguishing package declarative regions). -/
inductive PRegionKind where
  | packageDeclaration
  | otherRegion

/-- Interface list types (`InterfaceListType`). -/
inductive PInterfaceListType where
  | parameter
  | genericList
  | portList

mutual

/-- An arena entity (`AnyEnt`): id, designator, related link, kind,
declaration position and implicit children. -/
inductive PEnt where
  | mk (id : Nat) (designator : Designator) (related : PRelated)
      (kind : PKind) (declPos : Option Nat) (implicits : List PEnt)

/-- The `related` link (spec section 3): none, instance-of, implicit-of. -/
inductive PRelated where
  | noneR
  | instanceOf (ent : PEnt)
  | implicitOf (ent : PEnt)

/-- `AnyEntKind`, with exactly the variants `map_kind` dispatches on.
Embedded type marks are entity references (`TypeEnt`), modelled as the
referenced entity tree. -/
inductive PKind where
  | externalAlias (cls : PObjectClass) (type_mark : PEnt)
  | objectAlias (base_object : PEnt) (type_mark : PEnt)
  | file (subtype : PSubtype)
  | interfaceFile (typ : PEnt)
  | component (region : PRegion)
  | attribute (typ : PEnt)
  | overloaded (ov : POverloaded)
  | typeK (t : PType)
  | elementDeclaration (subtype : PSubtype)
  | label
  | object (obj : PObject)
  | loopParameter (typ : Option PEnt)
  | physicalLiteral (typ : PEnt)
  | deferredConstant (subtype : PSubtype)
  | library
  | design (d : PDesign)

/-- `Object`. -/
inductive PObject where
  | mk (cls : PObjectClass) (mode : Option PMode) (subtype : PSubtype)
      (has_default : Bool)

/-- `Subtype`: a resolved type mark. -/
inductive PSubtype where
  | mk (type_mark : PEnt)

/-- `Overloaded`. -/
inductive POverloaded where
  | subprogramDecl (s : PSignature)
  | subprogram (s : PSignature)
  | interfaceSubprogram (s : PSignature)
  | enumLiteral (s : PSignature)
  | aliasOf (ent : PEnt)

/-- `Signature`: a formal region (its list type and interface entities)
and an optional return type. -/
inductive PSignature where
  | mk (ftyp : PInterfaceListType) (formals : List PEnt)
      (return_type : Option PEnt)

/-- The `Type` variants. -/
inductive PType where
  | array (indexes : List (Option PEnt)) (elem_type : PEnt)
  | enumT (symbols : List Designator)
  | integer
  | real
  | physical
  | access (subtype : PSubtype)
  | record (elems : List PEnt)
  | subtypeT (subtype : PSubtype)
  | protectedT (region : PRegion) (bodyPos : Option Nat)
  | fileT
  | aliasT (typ : PEnt)
  | universal (u : PUniversalType)
  | incomplete
  | interface

/-- A region: its named entities in insertion order and its kind tag. -/
inductive PRegion where
  | mk (entities : List PNamed) (kind : PRegionKind)

/-- `NamedEntities` inside a region. -/
inductive PNamed where
  | single (ent : PEnt)
  | overloadedN (ents : List PEnt)

/-- `Design`, as in named_entity/design.rs.  Only package instances are
instantiated; the payloads of the other variants are never consumed by
`map_kind` (it fails on them) and are omitted. -/
inductive PDesign where
  | packageInstance (region : PRegion)
  | entityD
  | configuration
  | package
  | uninstPackage
  | context

end

/-- Entity id. -/
def PEnt.id : PEnt → Nat
  | PEnt.mk i _ _ _ _ _ => i

/-- Entity designator. -/
def PEnt.designator : PEnt → Designator
  | PEnt.mk _ d _ _ _ _ => d

/-- Entity related link. -/
def PEnt.related : PEnt → PRelated
  | PEnt.mk _ _ r _ _ _ => r

/-- Entity kind. -/
def PEnt.kind : PEnt → PKind
  | PEnt.mk _ _ _ k _ _ => k

/-- Entity declaration position. -/
def PEnt.declPos : PEnt → Option Nat
  | PEnt.mk _ _ _ _ p _ => p

/-- Entity implicit children. -/
def PEnt.implicits : PEnt → List PEnt
  | PEnt.mk _ _ _ _ _ l => l

/-- The formal-to-actual mapping built by `package_generic_map`: an
association from uninstantiated generic entity ids to actual entities. -/
abbrev PMap := List (Nat × PEnt)

/-- Mapping lookup (`mapping.get(&typ.id())`). -/
def plookup : PMap → Nat → Option PEnt
  | [], _ => none
  | (k, v) :: rest, i => if k = i then some v else plookup rest i

/-- `TypeEnt::from_any` succeeds exactly on type-kinded entities. -/
def isTypeEnt (e : PEnt) : Bool :=
  match e.kind with
  | PKind.typeK _ => true
  | _ => false

/-- `ObjectEnt::from_any` succeeds exactly on object-kinded entities. -/
def isObjectEnt (e : PEnt) : Bool :=
  match e.kind with
  | PKind.object _ => true
  | _ => false

/-- `OverloadedEnt::from_any` succeeds exactly on overloaded entities. -/
def isOverloadedPEnt (e : PEnt) : Bool :=
  match e.kind with
  | PKind.overloaded _ => true
  | _ => false

/-- Modelled from the spec: `InterfaceEnt::from_any` (formal_region, not
under src/): interface entities are objects carrying a mode, or interface
files. -/
def isInterfaceEnt (e : PEnt) : Bool :=
  match e.kind with
  | PKind.object (PObject.mk _ (some _) _ _) => true
  | PKind.interfaceFile _ => true
  | _ => false

/-- `RecordElement::from_any` succeeds exactly on element declarations. -/
def isRecordElement (e : PEnt) : Bool :=
  match e.kind with
  | PKind.elementDeclaration _ => true
  | _ => false

/-- Modelled from the spec: `base_type()` (named_entity, not under src/):
peel `Subtype` and `Alias` down to the defining type (spec 4.C). -/
def pbase : PEnt → PEnt
  | PEnt.mk _ _ _ (PKind.typeK (PType.subtypeT (PSubtype.mk tm))) _ _ => pbase tm
  | PEnt.mk _ _ _ (PKind.typeK (PType.aliasT t)) _ _ => pbase t
  | e => e

/-- The internal errors `instantiate` and companions surface as strings in
the source. -/
inductive InstErr where
  | outOfFuel
  | mappedNotAType
  | objectAliasNotObject
  | aliasNotOverloaded
  | formalNotInterface
  | recordElemNotRecordElem
  | unexpectedDesign

/-- `map_type_ent` (package_instance.rs): look the type reference's id up
in the mapping; when present the actual is returned after the sanity
check that it is a type; otherwise the reference passes through
unchanged. -/
def map_type_ent (mapping : PMap) (typ : PEnt) : Except InstErr PEnt :=
  match plookup mapping typ.id with
  | some ent =>
    if isTypeEnt ent then Except.ok ent else Except.error InstErr.mappedNotAType
  | none => Except.ok typ

/-- `map_subtype`. -/
def map_subtype (mapping : PMap) (subtype : PSubtype) : Except InstErr PSubtype :=
  match subtype with
  | PSubtype.mk type_mark => (map_type_ent mapping type_mark).map PSubtype.mk

/-- `map_object`: only the subtype is rewritten. -/
def map_object (mapping : PMap) (obj : PObject) : Except InstErr PObject :=
  match obj with
  | PObject.mk cls mode subtype has_default =>
    (map_subtype mapping subtype).map (fun s => PObject.mk cls mode s has_default)

/-- The type mark an interface entity contributes to a signature key. -/
def formal_type_mark (e : PEnt) : Option PEnt :=
  match e.kind with
  | PKind.object (PObject.mk _ _ (PSubtype.mk tm) _) => some tm
  | PKind.interfaceFile t => some t
  | _ => none

/-- Modelled from the spec: a `SignatureKey` (spec section 3): the base
type ids of the parameters and the optional base type id of the return
type. -/
def sig_key (s : PSignature) : List Nat × Option Nat :=
  match s with
  | PSignature.mk _ formals ret =>
    (formals.map (fun f =>
       match formal_type_mark f with
       | some tm => (pbase tm).id
       | none => 0),
     ret.map (fun r => (pbase r).id))

/-- The signature key of an overloaded entity, when it carries a
signature directly (aliases defer to their target and are not checked
for duplication here). -/
def psig_key (e : PEnt) : Option (List Nat × Option Nat) :=
  match e.kind with
  | PKind.overloaded (POverloaded.subprogramDecl s) => some (sig_key s)
  | PKind.overloaded (POverloaded.subprogram s) => some (sig_key s)
  | PKind.overloaded (POverloaded.interfaceSubprogram s) => some (sig_key s)
  | PKind.overloaded (POverloaded.enumLiteral s) => some (sig_key s)
  | _ => none

/-- Does a named-entities entry hold the given designator? -/
def pnamedHasDes (d : Designator) : PNamed → Bool
  | PNamed.single e => e.designator == d
  | PNamed.overloadedN es => es.any (fun e => e.designator == d)

/-- Is the entity overloadable (subprogram, enum literal, alias of a
subprogram — spec 4.B)? -/
def isOverloadable (e : PEnt) : Bool :=
  isOverloadedPEnt e

/-- Modelled from the spec: `Region::add` (region store, not under src/),
spec 4.B: insert fresh designators; merge overloadable entities into the
overloaded set of their designator, rejecting exact signature-key
duplicates; reject everything else as a duplicate.  During instantiation
the diagnostics are discarded, so a rejected entity is simply dropped. -/
def region_add_entities (entities : List PNamed) (ent : PEnt) : List PNamed :=
  if entities.any (pnamedHasDes ent.designator) then
    entities.map (fun n =>
      if pnamedHasDes ent.designator n then
        match n with
        | PNamed.overloadedN es =>
          if isOverloadable ent &&
              !(es.any (fun e => psig_key e == psig_key ent && (psig_key ent).isSome)) then
            PNamed.overloadedN (es ++ [ent])
          else n
        | PNamed.single _ => n
      else n)
  else
    entities ++
      [if isOverloadable ent then PNamed.overloadedN [ent] else PNamed.single ent]

/-- The index loop of `map_type`'s array case: each present index type is
mapped and then taken to its base type. -/
def map_array_indexes (mapping : PMap) :
    List (Option PEnt) → Except InstErr (List (Option PEnt))
  | [] => Except.ok []
  | none :: rest =>
    (map_array_indexes mapping rest).map (fun r => none :: r)
  | some t :: rest =>
    match map_type_ent mapping t with
    | Except.error err => Except.error err
    | Except.ok u =>
      (map_array_indexes mapping rest).map (fun r => some (pbase u) :: r)

mutual

/-- `instantiate` (package_instance.rs): allocate a new entity with the
same designator and declaration position, related `instance-of` the
uninstantiated entity, kind rewritten by `map_kind`; then recursively
instantiate every implicit child and attach it.  `nid` is the next fresh
arena id. -/
def instantiate : Nat → PMap → Nat → PEnt → Except InstErr (PEnt × Nat)
  | 0, _, _, _ => Except.error InstErr.outOfFuel
  | fuel+1, mapping, nid, uninst =>
    match map_kind fuel mapping nid uninst.kind with
    | Except.error err => Except.error err
    | Except.ok (kind, nid1) =>
      match instantiate_list fuel mapping (nid1+1) uninst.implicits with
      | Except.error err => Except.error err
      | Except.ok (impls, nid2) =>
        Except.ok
          (PEnt.mk nid1 uninst.designator (PRelated.instanceOf uninst) kind
            uninst.declPos impls, nid2)

/-- Instantiation of a list of entities (the implicit-children loop). -/
def instantiate_list : Nat → PMap → Nat → List PEnt →
    Except InstErr (List PEnt × Nat)
  | 0, _, _, _ => Except.error InstErr.outOfFuel
  | _+1, _, nid, [] => Except.ok ([], nid)
  | fuel+1, mapping, nid, e :: es =>
    match instantiate fuel mapping nid e with
    | Except.error err => Except.error err
    | Except.ok (i, nid1) =>
      match instantiate_list fuel mapping nid1 es with
      | Except.error err => Except.error err
      | Except.ok (is, nid2) => Except.ok (i :: is, nid2)

/-- `map_kind` (package_instance.rs): total traversal of `AnyEntKind`
rewriting every embedded type/subtype/signature/region. -/
def map_kind : Nat → PMap → Nat → PKind → Except InstErr (PKind × Nat)
  | 0, _, _, _ => Except.error InstErr.outOfFuel
  | fuel+1, mapping, nid, kind =>
    match kind with
    | PKind.externalAlias cls type_mark =>
      (map_type_ent mapping type_mark).map
        (fun t => (PKind.externalAlias cls t, nid))
    | PKind.objectAlias base_object type_mark =>
      match instantiate fuel mapping nid base_object with
      | Except.error err => Except.error err
      | Except.ok (obj, nid1) =>
        if isObjectEnt obj then
          (map_type_ent mapping type_mark).map
            (fun t => (PKind.objectAlias obj t, nid1))
        else Except.error InstErr.objectAliasNotObject
    | PKind.file subtype =>
      (map_subtype mapping subtype).map (fun s => (PKind.file s, nid))
    | PKind.interfaceFile typ =>
      (map_type_ent mapping typ).map (fun t => (PKind.interfaceFile t, nid))
    | PKind.component region =>
      match map_region fuel mapping nid region with
      | Except.error err => Except.error err
      | Except.ok (r, nid1) => Except.ok (PKind.component r, nid1)
    | PKind.attribute typ =>
      (map_type_ent mapping typ).map (fun t => (PKind.attribute t, nid))
    | PKind.overloaded ov =>
      match map_overloaded fuel mapping nid ov with
      | Except.error err => Except.error err
      | Except.ok (o, nid1) => Except.ok (PKind.overloaded o, nid1)
    | PKind.typeK t =>
      match map_type fuel mapping nid t with
      | Except.error err => Except.error err
      | Except.ok (t1, nid1) => Except.ok (PKind.typeK t1, nid1)
    | PKind.elementDeclaration subtype =>
      (map_subtype mapping subtype).map
        (fun s => (PKind.elementDeclaration s, nid))
    | PKind.label => Except.ok (PKind.label, nid)
    | PKind.object obj =>
      (map_object mapping obj).map (fun o => (PKind.object o, nid))
    | PKind.loopParameter none => Except.ok (PKind.loopParameter none, nid)
    | PKind.loopParameter (some typ) =>
      (map_type_ent mapping typ).map
        (fun t => (PKind.loopParameter (some (pbase t)), nid))
    | PKind.physicalLiteral typ =>
      (map_type_ent mapping typ).map (fun t => (PKind.physicalLiteral t, nid))
    | PKind.deferredConstant subtype =>
      (map_subtype mapping subtype).map
        (fun s => (PKind.deferredConstant s, nid))
    | PKind.library => Except.ok (PKind.library, nid)
    | PKind.design (PDesign.packageInstance region) =>
      match map_region fuel mapping nid region with
      | Except.error err => Except.error err
      | Except.ok (r, nid1) =>
        Except.ok (PKind.design (PDesign.packageInstance r), nid1)
    | PKind.design _ => Except.error InstErr.unexpectedDesign

/-- `map_type`. -/
def map_type : Nat → PMap → Nat → PType → Except InstErr (PType × Nat)
  | 0, _, _, _ => Except.error InstErr.outOfFuel
  | fuel+1, mapping, nid, t =>
    match t with
    | PType.array indexes elem_type =>
      match map_array_indexes mapping indexes with
      | Except.error err => Except.error err
      | Except.ok mapped_indexes =>
        (map_type_ent mapping elem_type).map
          (fun e => (PType.array mapped_indexes e, nid))
    | PType.enumT symbols => Except.ok (PType.enumT symbols, nid)
    | PType.integer => Except.ok (PType.integer, nid)
    | PType.real => Except.ok (PType.real, nid)
    | PType.physical => Except.ok (PType.physical, nid)
    | PType.access subtype =>
      (map_subtype mapping subtype).map (fun s => (PType.access s, nid))
    | PType.record elems =>
      match instantiate_record_elems fuel mapping nid elems with
      | Except.error err => Except.error err
      | Except.ok (inst_elems, nid1) =>
        Except.ok (PType.record inst_elems, nid1)
    | PType.subtypeT subtype =>
      (map_subtype mapping subtype).map (fun s => (PType.subtypeT s, nid))
    | PType.protectedT region _ =>
      match map_region fuel mapping nid region with
      | Except.error err => Except.error err
      | Except.ok (r, nid1) => Except.ok (PType.protectedT r none, nid1)
    | PType.fileT => Except.ok (PType.fileT, nid)
    | PType.aliasT typ =>
      (map_type_ent mapping typ).map (fun u => (PType.aliasT u, nid))
    | PType.universal u => Except.ok (PType.universal u, nid)
    | PType.incomplete => Except.ok (PType.incomplete, nid)
    | PType.interface => Except.ok (PType.interface, nid)

/-- The record-element loop of `map_type`'s record case. -/
def instantiate_record_elems : Nat → PMap → Nat → List PEnt →
    Except InstErr (List PEnt × Nat)
  | 0, _, _, _ => Except.error InstErr.outOfFuel
  | _+1, _, nid, [] => Except.ok ([], nid)
  | fuel+1, mapping, nid, e :: es =>
    match instantiate fuel mapping nid e with
    | Except.error err => Except.error err
    | Except.ok (i, nid1) =>
      if isRecordElement i then
        match instantiate_record_elems fuel mapping nid1 es with
        | Except.error err => Except.error err
        | Except.ok (is, nid2) => Except.ok (i :: is, nid2)
      else Except.error InstErr.recordElemNotRecordElem

/-- `map_overloaded`. -/
def map_overloaded : Nat → PMap → Nat → POverloaded →
    Except InstErr (POverloaded × Nat)
  | 0, _, _, _ => Except.error InstErr.outOfFuel
  | fuel+1, mapping, nid, ov =>
    match ov with
    | POverloaded.subprogramDecl s =>
      match map_signature fuel mapping nid s with
      | Except.error err => Except.error err
      | Except.ok (s1, nid1) => Except.ok (POverloaded.subprogramDecl s1, nid1)
    | POverloaded.subprogram s =>
      match map_signature fuel mapping nid s with
      | Except.error err => Except.error err
      | Except.ok (s1, nid1) => Except.ok (POverloaded.subprogram s1, nid1)
    | POverloaded.interfaceSubprogram s =>
      match map_signature fuel mapping nid s with
      | Except.error err => Except.error err
      | Except.ok (s1, nid1) =>
        Except.ok (POverloaded.interfaceSubprogram s1, nid1)
    | POverloaded.enumLiteral s =>
      match map_signature fuel mapping nid s with
      | Except.error err => Except.error err
      | Except.ok (s1, nid1) => Except.ok (POverloaded.enumLiteral s1, nid1)
    | POverloaded.aliasOf ent =>
      match instantiate fuel mapping nid ent with
      | Except.error err => Except.error err
      | Except.ok (alias_inst, nid1) =>
        if isOverloadedPEnt alias_inst then
          Except.ok (POverloaded.aliasOf alias_inst, nid1)
        else Except.error InstErr.aliasNotOverloaded

/-- `map_signature`: instantiate each formal (re-asserting it is an
interface entity), rewrite the return type. -/
def map_signature : Nat → PMap → Nat → PSignature →
    Except InstErr (PSignature × Nat)
  | 0, _, _, _ => Except.error InstErr.outOfFuel
  | fuel+1, mapping, nid, PSignature.mk ftyp formals return_type =>
    match instantiate_formals fuel mapping nid formals with
    | Except.error err => Except.error err
    | Except.ok (inst_formals, nid1) =>
      match return_type with
      | some rt =>
        (map_type_ent mapping rt).map
          (fun t => (PSignature.mk ftyp inst_formals (some t), nid1))
      | none => Except.ok (PSignature.mk ftyp inst_formals none, nid1)

/-- The formal-instantiation loop of `map_signature`. -/
def instantiate_formals : Nat → PMap → Nat → List PEnt →
    Except InstErr (List PEnt × Nat)
  | 0, _, _, _ => Except.error InstErr.outOfFuel
  | _+1, _, nid, [] => Except.ok ([], nid)
  | fuel+1, mapping, nid, f :: fs =>
    match instantiate fuel mapping nid f with
    | Except.error err => Except.error err
    | Except.ok (i, nid1) =>
      if isInterfaceEnt i then
        match instantiate_formals fuel mapping nid1 fs with
        | Except.error err => Except.error err
        | Except.ok (is, nid2) => Except.ok (i :: is, nid2)
      else Except.error InstErr.formalNotInterface

/-- `map_region`: instantiate every member and re-insert it through the
region's normal `add` path with diagnostics discarded. -/
def map_region : Nat → PMap → Nat → PRegion → Except InstErr (PRegion × Nat)
  | 0, _, _, _ => Except.error InstErr.outOfFuel
  | fuel+1, mapping, nid, PRegion.mk entities rkind =>
    match map_region_entities fuel mapping nid entities [] with
    | Except.error err => Except.error err
    | Except.ok (inst_entities, nid1) =>
      Except.ok (PRegion.mk inst_entities rkind, nid1)

/-- The member loop of `map_region`: each instantiated member is inserted
into the accumulating fresh region through `region_add_entities`. -/
def map_region_entities : Nat → PMap → Nat → List PNamed → List PNamed →
    Except InstErr (List PNamed × Nat)
  | 0, _, _, _, _ => Except.error InstErr.outOfFuel
  | _+1, _, nid, [], acc => Except.ok (acc, nid)
  | fuel+1, mapping, nid, PNamed.single e :: ns, acc =>
    match instantiate fuel mapping nid e with
    | Except.error err => Except.error err
    | Except.ok (i, nid1) =>
      map_region_entities fuel mapping nid1 ns (region_add_entities acc i)
  | fuel+1, mapping, nid, PNamed.overloadedN es :: ns, acc =>
    match map_region_group fuel mapping nid es acc with
    | Except.error err => Except.error err
    | Except.ok (acc1, nid1) => map_region_entities fuel mapping nid1 ns acc1

/-- The group-member loop for an overloaded entry of `map_region`. -/
def map_region_group : Nat → PMap → Nat → List PEnt → List PNamed →
    Except InstErr (List PNamed × Nat)
  | 0, _, _, _, _ => Except.error InstErr.outOfFuel
  | _+1, _, nid, [], acc => Except.ok (acc, nid)
  | fuel+1, mapping, nid, e :: es, acc =>
    match instantiate fuel mapping nid e with
    | Except.error err => Except.error err
    | Except.ok (i, nid1) =>
      map_region_group fuel mapping nid1 es (region_add_entities acc i)

end

/-- The entities of a region in order. -/
def PRegion.entities : PRegion → List PNamed
  | PRegion.mk es _ => es

/-- Flatten a region's named entries into the member entities in order. -/
def flattenNamed : List PNamed → List PEnt
  | [] => []
  | PNamed.single e :: ns => e :: flattenNamed ns
  | PNamed.overloadedN es :: ns => es ++ flattenNamed ns

/-! Collectors for the type references a kind embeds, in the traversal
order of `map_kind`.  Each collected reference is tagged: `true` marks the
positions where the source applies `.base()` to the mapped reference
(array index types and loop-parameter types).  Region-valued payloads
contribute no entries here — their members are whole entities copied
through `instantiate` and are covered by the region clause of the
substitution theorem.  The recursion-depth patterns mirror those of the
`map_*` functions so that the collectors and the mappers walk the same
tree layers at the same depth. -/

/-- References embedded in an array's index list. -/
def index_refs : List (Option PEnt) → List (Bool × PEnt)
  | [] => []
  | none :: rest => index_refs rest
  | some t :: rest => (true, t) :: index_refs rest

mutual

/-- The tagged type references embedded in a kind. -/
def kind_refs : Nat → PKind → List (Bool × PEnt)
  | 0, _ => []
  | fuel+1, kind =>
    match kind with
    | PKind.externalAlias _ tm => [(false, tm)]
    | PKind.objectAlias base tm => ent_refs fuel base ++ [(false, tm)]
    | PKind.file (PSubtype.mk tm) => [(false, tm)]
    | PKind.interfaceFile t => [(false, t)]
    | PKind.component _ => []
    | PKind.attribute t => [(false, t)]
    | PKind.overloaded ov => overloaded_refs fuel ov
    | PKind.typeK t => type_refs fuel t
    | PKind.elementDeclaration (PSubtype.mk tm) => [(false, tm)]
    | PKind.label => []
    | PKind.object (PObject.mk _ _ (PSubtype.mk tm) _) => [(false, tm)]
    | PKind.loopParameter none => []
    | PKind.loopParameter (some t) => [(true, t)]
    | PKind.physicalLiteral t => [(false, t)]
    | PKind.deferredConstant (PSubtype.mk tm) => [(false, tm)]
    | PKind.library => []
    | PKind.design _ => []

/-- The tagged type references embedded in an entity: those of its kind
followed by those of its implicit children. -/
def ent_refs : Nat → PEnt → List (Bool × PEnt)
  | 0, _ => []
  | fuel+1, e => kind_refs fuel e.kind ++ ent_refs_list fuel e.implicits

/-- References of a list of entities. -/
def ent_refs_list : Nat → List PEnt → List (Bool × PEnt)
  | 0, _ => []
  | _+1, [] => []
  | fuel+1, e :: es => ent_refs fuel e ++ ent_refs_list fuel es

/-- References of an overloaded kind. -/
def overloaded_refs : Nat → POverloaded → List (Bool × PEnt)
  | 0, _ => []
  | fuel+1, ov =>
    match ov with
    | POverloaded.subprogramDecl s => sig_refs fuel s
    | POverloaded.subprogram s => sig_refs fuel s
    | POverloaded.interfaceSubprogram s => sig_refs fuel s
    | POverloaded.enumLiteral s => sig_refs fuel s
    | POverloaded.aliasOf e => ent_refs fuel e

/-- References of a signature: its formals' references followed by the
return type. -/
def sig_refs : Nat → PSignature → List (Bool × PEnt)
  | 0, _ => []
  | fuel+1, PSignature.mk _ formals ret =>
    ent_refs_list fuel formals ++
      (match ret with
       | some r => [(false, r)]
       | none => [])

/-- References of a type variant. -/
def type_refs : Nat → PType → List (Bool × PEnt)
  | 0, _ => []
  | fuel+1, t =>
    match t with
    | PType.array indexes elem_type => index_refs indexes ++ [(false, elem_type)]
    | PType.access (PSubtype.mk tm) => [(false, tm)]
    | PType.record elems => ent_refs_list fuel elems
    | PType.subtypeT (PSubtype.mk tm) => [(false, tm)]
    | PType.aliasT typ => [(false, typ)]
    | _ => []

end

/-- The relation the instantiation-substitution claim asserts between an
embedded type reference of the uninstantiated entity (tagged with whether
the source takes the base of the mapped reference) and the reference
stored at the same position of the instantiated copy: a reference whose
id is in the mapping is replaced by the mapped actual, a reference whose
id is not in the mapping passes through unchanged — except that at the
tagged base positions the base type of that result is stored. -/
def ref_mapped (mapping : PMap) (p q : Bool × PEnt) : Prop :=
  q.1 = p.1 ∧
  ((∃ a, plookup mapping p.2.id = some a ∧
      q.2 = (if p.1 then pbase a else a)) ∨
   (plookup mapping p.2.id = none ∧
      q.2 = (if p.1 then pbase p.2 else p.2)))

/-! ## Declarative parts and incomplete types (declarative.rs)

The incomplete-type pass of `analyze_declarative_part` together with the
enumeration branch of `analyze_type_declaration`.  Symbols and source
positions are numbered.  The entity arena and the scope's region store
are collaborators outside the analyzed sources; their operations
(`explicit`, `define_with_opt_id`, `add_implicit`, `Region::add`) are
modelled from the specification (sections 4.A and 4.B). -/

/-- An identifier occurrence with its position and the mutable
entity-reference slot written by `define` (`WithDecl<Ident>`). -/
structure DIdent where
  name : Nat
  pos : Nat
  decl : Option Nat
deriving DecidableEq

/-- An enumeration literal occurrence: designator (identifier or
character), position, and reference slot. -/
structure DEnumLit where
  des : Designator
  pos : Nat
  decl : Option Nat
deriving DecidableEq

/-- The type definitions the embedded slice covers: incomplete type
declarations (with their AST reference slot) and enumeration definitions.
The remaining variants resolve subtypes and ranges through collaborators
outside src/ and are not needed by the claims. -/
inductive DTypeDef where
  | incomplete (reference : Option Nat)
  | enumeration (literals : List DEnumLit)
deriving DecidableEq

/-- `TypeDeclaration`. -/
structure DTypeDecl where
  ident : DIdent
  tdef : DTypeDef
deriving DecidableEq

/-- The declarations of the embedded declarative part (type declarations;
the other `Declaration` variants are dispatched to collaborators the
claims do not mention). -/
inductive DDecl where
  | typeDecl (td : DTypeDecl)
deriving DecidableEq

/-- `find_full_type_definition` (declarative.rs): the first non-incomplete
type declaration with the given name among the remaining declarations. -/
def find_full_type_definition (name : Nat) : List DDecl → Option DTypeDecl
  | [] => none
  | DDecl.typeDecl td :: rest =>
    match td.tdef with
    | DTypeDef.incomplete _ => find_full_type_definition name rest
    | _ =>
      if td.ident.name == name then some td
      else find_full_type_definition name rest

/-- Entity kinds of the declarative slice.  Overloaded entities carry
their signature key (parameter base-type ids, optional return base-type
id). -/
inductive DEntKind where
  | typeIncomplete
  | typeEnum (symbols : List Designator)
  | enumLiteral (params : List Nat) (ret : Option Nat)
  | implicitOp (params : List Nat) (ret : Option Nat)
deriving DecidableEq

/-- Overloadable kinds (spec 4.B): subprograms and enum literals. -/
def DEntKind.isOverloadable : DEntKind → Bool
  | DEntKind.typeIncomplete => false
  | DEntKind.typeEnum _ => false
  | DEntKind.enumLiteral _ _ => true
  | DEntKind.implicitOp _ _ => true

/-- The signature key of an overloadable kind. -/
def DEntKind.sigKey : DEntKind → Option (List Nat × Option Nat)
  | DEntKind.enumLiteral p r => some (p, r)
  | DEntKind.implicitOp p r => some (p, r)
  | _ => none

/-- An arena entity of the declarative slice. -/
structure DEnt where
  designator : Designator
  kind : DEntKind
  declPos : Option Nat
  implicits : List Nat
deriving DecidableEq

/-- The entity arena: the next fresh id and the id-indexed store. -/
structure DArena where
  next : Nat
  ents : List (Nat × DEnt)
deriving DecidableEq

/-- Arena store lookup. -/
def alookup : List (Nat × DEnt) → Nat → Option DEnt
  | [], _ => none
  | (k, v) :: rest, i => if k = i then some v else alookup rest i

/-- Arena store update (overwrite the entry when present, append
otherwise). -/
def aset : List (Nat × DEnt) → Nat → DEnt → List (Nat × DEnt)
  | [], i, e => [(i, e)]
  | (k, v) :: rest, i, e =>
    if k = i then (i, e) :: rest else (k, v) :: aset rest i e

/-- Modelled from the spec: arena `explicit` (spec 4.A): allocate a fresh
entity and hand out its id. -/
def arena_explicit (a : DArena) (des : Designator) (kind : DEntKind)
    (pos : Option Nat) : Nat × DArena :=
  (a.next, ⟨a.next + 1, aset a.ents a.next ⟨des, kind, pos, []⟩⟩)

/-- Modelled from the spec: `define_with_opt_id` (spec 4.A): reuse the
given pre-allocated id, upgrading the entity in place (same id, new
kind), or allocate fresh. -/
def arena_define_with_opt_id (a : DArena) (overwrite_id : Option Nat)
    (des : Designator) (kind : DEntKind) (pos : Option Nat) : Nat × DArena :=
  match overwrite_id with
  | some i => (i, ⟨a.next, aset a.ents i ⟨des, kind, pos, []⟩⟩)
  | none => arena_explicit a des kind pos

/-- Modelled from the spec: `add_implicit` (spec 4.A): append the child id
to the parent's implicit list. -/
def arena_add_implicit (a : DArena) (parent : Nat) (child : Nat) : DArena :=
  match alookup a.ents parent with
  | some e =>
    ⟨a.next, aset a.ents parent ⟨e.designator, e.kind, e.declPos, e.implicits ++ [child]⟩⟩
  | none => a

/-- A region entry: a single entity or an overloaded set; overloaded
members keep their kinds for the signature-duplicate check. -/
inductive DRegEntry where
  | single (id : Nat)
  | overloadedE (ents : List (Nat × DEntKind))
deriving DecidableEq

/-- A region: designator-keyed named entities in insertion order. -/
abbrev DRegion := List (Designator × DRegEntry)

/-- Region lookup. -/
def rlookup : DRegion → Designator → Option DRegEntry
  | [], _ => none
  | (d, e) :: rest, des => if d = des then some e else rlookup rest des

/-- Replace the value stored for a designator in a region. -/
def region_update (d0 : Designator) (v1 : DRegEntry) : DRegion → DRegion
  | [] => []
  | (k, v) :: rest =>
    if k = d0 then (k, v1) :: region_update d0 v1 rest
    else (k, v) :: region_update d0 v1 rest

/-- The diagnostics of the declarative slice. -/
inductive DDiag where
  | missingFullType (name : Nat) (pos : Nat)
  | duplicateDecl (des : Designator) (pos : Nat) (prevPos : Option Nat)
  | duplicateInRegion (des : Designator)
deriving DecidableEq

/-- Modelled from the spec: `Region::add` / `scope.add` (spec 4.B): insert
fresh designators; merge overloadable entities into their designator's
overloaded set, rejecting exact signature-key duplicates; adding the
entity that upgrades an incomplete type in place (same entity id) is not
a duplicate (spec section 8, scenario 1); everything else is reported as
a duplicate declaration and the region keeps the previous entity. -/
def region_add (r : DRegion) (id : Nat) (ent : DEnt) : DRegion × List DDiag :=
  match rlookup r ent.designator with
  | none =>
    (r ++ [(ent.designator,
       if ent.kind.isOverloadable then DRegEntry.overloadedE [(id, ent.kind)]
       else DRegEntry.single id)], [])
  | some (DRegEntry.single id0) =>
    if id0 == id then (r, [])
    else (r, [DDiag.duplicateInRegion ent.designator])
  | some (DRegEntry.overloadedE es) =>
    if ent.kind.isOverloadable then
      if es.any (fun p => p.2.sigKey == ent.kind.sigKey) then
        (r, [DDiag.duplicateInRegion ent.designator])
      else
        (region_update ent.designator
           (DRegEntry.overloadedE (es ++ [(id, ent.kind)])) r, [])
    else (r, [DDiag.duplicateInRegion ent.designator])

/-- The analyzer state threaded through a declarative part: the arena,
the scope's innermost region, the local `incomplete_types` map
(symbol to incomplete-entity id and identifier position) and the
diagnostics sink. -/
structure DState where
  arena : DArena
  region : DRegion
  incomplete_types : List (Nat × (Nat × Nat))
  diags : List DDiag

/-- Map lookup in `incomplete_types`. -/
def ilookup : List (Nat × (Nat × Nat)) → Nat → Option (Nat × Nat)
  | [], _ => none
  | (k, v) :: rest, n => if k = n then some v else ilookup rest n

/-- The implicit-operation factories (spec 4.C / section 6): external
collaborators producing, for a new type entity, the designators and kinds
of its implicit operations. -/
structure DeclContext where
  enum_implicits : Nat → List (Designator × DEntKind)

/-- Allocate, attach and insert the implicit operations of a type
(the `for ent in self.enum_implicits(..)` loop). -/
def add_implicits (st : DState) (parent : Nat) :
    List (Designator × DEntKind) → DState
  | [] => st
  | (des, kind) :: rest =>
    let implId := (arena_explicit st.arena des kind none).1
    let arena1 := (arena_explicit st.arena des kind none).2
    let arena2 := arena_add_implicit arena1 parent implId
    let ra := region_add st.region implId ⟨des, kind, none, []⟩
    add_implicits ⟨arena2, ra.1, st.incomplete_types, st.diags ++ ra.2⟩ parent
      rest

/-- The literal loop of the enumeration branch: allocate each literal's
overloaded entity, write its reference slot, attach it as an implicit of
the enum type and add it to the scope. -/
def add_enum_literals (st : DState) (enumId : Nat) :
    List DEnumLit → DState × List DEnumLit
  | [] => (st, [])
  | lit :: rest =>
    let kind := DEntKind.enumLiteral [] (some enumId)
    let litId := (arena_explicit st.arena lit.des kind (some lit.pos)).1
    let arena1 := (arena_explicit st.arena lit.des kind (some lit.pos)).2
    let arena2 := arena_add_implicit arena1 enumId litId
    let ra := region_add st.region litId ⟨lit.des, kind, some lit.pos, []⟩
    let res :=
      add_enum_literals ⟨arena2, ra.1, st.incomplete_types, st.diags ++ ra.2⟩
        enumId rest
    (res.1, { lit with decl := some litId } :: res.2)

/-- The enumeration branch of `analyze_type_declaration`
(declarative.rs): define the enum type (upgrading an incomplete entity in
place when `overwrite_id` is given), create the literal entities, add the
literals and then the type to the scope, then create and add the implicit
operations. -/
def analyze_enumeration (ctx : DeclContext) (st : DState)
    (overwrite_id : Option Nat) (ident : DIdent) (literals : List DEnumLit) :
    DState × DIdent × List DEnumLit :=
  let enumId :=
    (arena_define_with_opt_id st.arena overwrite_id (Designator.ident ident.name)
      (DEntKind.typeEnum (literals.map DEnumLit.des)) (some ident.pos)).1
  let arena1 :=
    (arena_define_with_opt_id st.arena overwrite_id (Designator.ident ident.name)
      (DEntKind.typeEnum (literals.map DEnumLit.des)) (some ident.pos)).2
  let st1 : DState := ⟨arena1, st.region, st.incomplete_types, st.diags⟩
  let res2 := add_enum_literals st1 enumId literals
  let ra :=
    region_add res2.1.region enumId
      ⟨Designator.ident ident.name,
       DEntKind.typeEnum (literals.map DEnumLit.des), some ident.pos, []⟩
  let st3 : DState :=
    ⟨res2.1.arena, ra.1, res2.1.incomplete_types, res2.1.diags ++ ra.2⟩
  let st4 := add_implicits st3 enumId (ctx.enum_implicits enumId)
  (st4, { ident with decl := some enumId }, res2.2)

/-- `analyze_type_declaration` (declarative.rs), restricted to the
embedded type definitions. -/
def analyze_type_declaration (ctx : DeclContext) (st : DState)
    (td : DTypeDecl) (overwrite_id : Option Nat) : DState × DTypeDecl :=
  match td.tdef with
  | DTypeDef.incomplete r => (st, ⟨td.ident, DTypeDef.incomplete r⟩)
  | DTypeDef.enumeration literals =>
    let res := analyze_enumeration ctx st overwrite_id td.ident literals
    (res.1, ⟨res.2.1, DTypeDef.enumeration res.2.2⟩)

/-- One iteration of the incomplete-type pass of
`analyze_declarative_part` (declarative.rs): the declaration at hand and
the remaining declarations of the same list. -/
def process_decl (ctx : DeclContext) (st : DState) (decl : DDecl)
    (remaining : List DDecl) : DState × DDecl :=
  match decl with
  | DDecl.typeDecl td =>
    match td.tdef with
    | DTypeDef.incomplete _ =>
      match ilookup st.incomplete_types td.ident.name with
      | none =>
        let full_definiton := find_full_type_definition td.ident.name remaining
        let decl_pos :=
          match full_definiton with
          | some full_decl => full_decl.ident.pos
          | none => td.ident.pos
        let diags1 :=
          match full_definiton with
          | some _ => []
          | none => [DDiag.missingFullType td.ident.name td.ident.pos]
        let entId :=
          (arena_explicit st.arena (Designator.ident td.ident.name)
            DEntKind.typeIncomplete (some decl_pos)).1
        let arena1 :=
          (arena_explicit st.arena (Designator.ident td.ident.name)
            DEntKind.typeIncomplete (some decl_pos)).2
        let incomplete1 :=
          st.incomplete_types ++ [(td.ident.name, (entId, td.ident.pos))]
        let ra :=
          region_add st.region entId
            ⟨Designator.ident td.ident.name, DEntKind.typeIncomplete,
             some decl_pos, []⟩
        (⟨arena1, ra.1, incomplete1, st.diags ++ diags1 ++ ra.2⟩,
         DDecl.typeDecl ⟨td.ident, DTypeDef.incomplete (some entId)⟩)
      | some (_, prev_pos) =>
        (⟨st.arena, st.region, st.incomplete_types,
          st.diags ++ [DDiag.duplicateDecl (Designator.ident td.ident.name)
            td.ident.pos (some prev_pos)]⟩, decl)
    | DTypeDef.enumeration _ =>
      match ilookup st.incomplete_types td.ident.name with
      | some (incompleteId, _) =>
        let res := analyze_type_declaration ctx st td (some incompleteId)
        (res.1, DDecl.typeDecl res.2)
      | none =>
        let res := analyze_type_declaration ctx st td none
        (res.1, DDecl.typeDecl res.2)

/-- The loop of `analyze_declarative_part`: each declaration is processed
with access to the remaining declarations of the same list. -/
def analyze_declarative_part_go (ctx : DeclContext) (st : DState) :
    List DDecl → DState × List DDecl
  | [] => (st, [])
  | d :: remaining =>
    let res1 := process_decl ctx st d remaining
    let res2 := analyze_declarative_part_go ctx res1.1 remaining
    (res2.1, res1.2 :: res2.2)

/-- `analyze_declarative_part` (declarative.rs): run the pass over the
declarations with a fresh local `incomplete_types` map. -/
def analyze_declarative_part (ctx : DeclContext) (arena : DArena)
    (region : DRegion) (decls : List DDecl) : DState × List DDecl :=
  analyze_declarative_part_go ctx ⟨arena, region, [], []⟩ decls

/-! ## Pipeline stage abbreviations used by the disambiguation theorems -/

/-- The candidates surviving the implicit-cast argument filter and, when a
target type is given, the implicit-cast return filter (stages 2-3). -/
def stages_through_ret (ctx : AnalyzeContext) (ttyp : Option TypeEnt)
    (overloaded : List OverloadedEnt) (operand_types : List ExpressionType) :
    List OverloadedEnt :=
  stage_ret ctx ttyp (stage_args ctx operand_types overloaded)

/-- The candidates surviving additionally the no-implicit-cast argument
re-filter (stage 4). -/
def stages_through_no_implicit (ctx : AnalyzeContext) (ttyp : Option TypeEnt)
    (overloaded : List OverloadedEnt) (operand_types : List ExpressionType) :
    List OverloadedEnt :=
  stage_no_implicit_args ctx operand_types
    (stages_through_ret ctx ttyp overloaded operand_types)

/-! ## Concrete inputs used by witnesses and counterexamples -/

/-- Universal integer. -/
def uintB : BaseTy := ⟨1, TyKind.universalInt⟩

/-- Universal real. -/
def urealB : BaseTy := ⟨2, TyKind.universalReal⟩

/-- The predefined boolean (an enumeration type). -/
def boolB : BaseTy := ⟨3, TyKind.enum⟩

/-- A concrete analysis context whose name-resolution oracles resolve
nothing. -/
def ctx0 : AnalyzeContext :=
  ⟨uintB, urealB, TypeEnt.ofBase boolB,
   fun _ _ => (none, []), fun _ _ _ => []⟩

/-- A concrete integer type. -/
def intB : BaseTy := ⟨10, TyKind.integer⟩

/-- A bit-vector-like array type. -/
def bitvB : BaseTy := ⟨11, TyKind.array⟩

/-- A string-like array type. -/
def strB : BaseTy := ⟨12, TyKind.array⟩

/-- Candidate `"-"(bit_vector) return integer`-style entity. -/
def candBitv : OverloadedEnt :=
  ⟨[TypeEnt.ofBase bitvB], some (TypeEnt.ofBase intB)⟩

/-- Candidate `"-"(string) return integer`-style entity. -/
def candStr : OverloadedEnt :=
  ⟨[TypeEnt.ofBase strB], some (TypeEnt.ofBase intB)⟩

/-- Candidate returning the concrete integer type with an integer formal. -/
def candInt : OverloadedEnt :=
  ⟨[TypeEnt.ofBase intB], some (TypeEnt.ofBase intB)⟩

/-- Candidate returning universal integer with a universal formal. -/
def candUniv : OverloadedEnt :=
  ⟨[TypeEnt.ofBase uintB], some (TypeEnt.ofBase uintB)⟩

/-- Enumeration types and integer types for the `boolean_expr` scenario. -/
def enumA : BaseTy := ⟨20, TyKind.enum⟩

/-- Second enumeration type for the `boolean_expr` scenario. -/
def enumB : BaseTy := ⟨21, TyKind.enum⟩

/-- First integer formal type of the scenario's operator candidates. -/
def int1B : BaseTy := ⟨22, TyKind.integer⟩

/-- Second integer formal type. -/
def int2B : BaseTy := ⟨23, TyKind.integer⟩

/-- Third integer formal type. -/
def int3B : BaseTy := ⟨24, TyKind.integer⟩

/-- Scenario candidate `"-"(int1) return enumA`. -/
def cand1 : OverloadedEnt := ⟨[TypeEnt.ofBase int1B], some (TypeEnt.ofBase enumA)⟩

/-- Scenario candidate `"-"(int2) return enumA`. -/
def cand2 : OverloadedEnt := ⟨[TypeEnt.ofBase int2B], some (TypeEnt.ofBase enumA)⟩

/-- Scenario candidate `"-"(int3) return enumB`. -/
def cand3 : OverloadedEnt := ⟨[TypeEnt.ofBase int3B], some (TypeEnt.ofBase enumB)⟩

/-- The scenario's `??` operator, defined for `enumB` only. -/
def qqEnt : OverloadedEnt := ⟨[TypeEnt.ofBase enumB], some (TypeEnt.ofBase boolB)⟩

/-- The scenario scope: a unary minus overloaded three ways and a `??`
operator for `enumB`. -/
def scope7 : Scope := fun d =>
  if d == Designator.opSym Operator.minus then
    some (NamedEntities.overloaded [cand1, cand2, cand3])
  else if d == Designator.opSym Operator.queQue then
    some (NamedEntities.overloaded [qqEnt])
  else none

/-- The scenario expression `- 0`. -/
def expr7 : Expr := Expr.unary ⟨Operator.minus, none⟩ (Expr.literal (Literal.intLit 0))

/-- An empty scope. -/
def scope0 : Scope := fun _ => none

/-- A trivial uninstantiated entity (a label) for the instantiation
witness. -/
def uLabel : PEnt := PEnt.mk 0 (Designator.ident 0) PRelated.noneR PKind.label none []

/-- Its instantiated copy. -/
def iLabel : PEnt :=
  PEnt.mk 0 (Designator.ident 0) (PRelated.instanceOf uLabel) PKind.label none []

/-- A concrete integer type entity for the substitution counterexample. -/
def pInt : PEnt :=
  PEnt.mk 8 (Designator.ident 8) PRelated.noneR (PKind.typeK PType.integer) none []

/-- A subtype entity (like `natural`) whose base type is `pInt`. -/
def pNatural : PEnt :=
  PEnt.mk 7 (Designator.ident 7) PRelated.noneR
    (PKind.typeK (PType.subtypeT (PSubtype.mk pInt))) none []

/-- An interface type entity (a type generic `U`). -/
def pU : PEnt :=
  PEnt.mk 5 (Designator.ident 5) PRelated.noneR (PKind.typeK PType.interface) none []

/-- An array type kind whose index and element type both reference `U`. -/
def pArrKind : PKind := PKind.typeK (PType.array [some pU] pU)

/-- The mapping `U → natural`. -/
def pMapU : PMap := [(5, pNatural)]

/-- An uninstantiated entity whose kind is the `U`-referencing array
kind. -/
def c2ent : PEnt :=
  PEnt.mk 1 (Designator.ident 1) PRelated.noneR pArrKind none []

/-- Its instantiated copy under `pMapU`: the index position stores the
base `integer` of the actual, the element position the actual itself. -/
def c2inst : PEnt :=
  PEnt.mk 0 (Designator.ident 1) (PRelated.instanceOf c2ent)
    (PKind.typeK (PType.array [some pInt] pNatural)) none []

/-! ## Side conditions for the incomplete-upgrade theorem -/

/-- The declaration does not involve the designator `ident d`: its own
identifier differs and, for an enumeration, no literal designator equals
it. -/
def avoids (d : Nat) : DDecl → Prop
  | DDecl.typeDecl td =>
    td.ident.name ≠ d ∧
    (match td.tdef with
     | DTypeDef.incomplete _ => True
     | DTypeDef.enumeration lits => ∀ l ∈ lits, l.des ≠ Designator.ident d)

/-- No implicit-operation factory output uses the designator `ident d`. -/
def factoryAvoids (d : Nat) (ctx : DeclContext) : Prop :=
  ∀ n x, x ∈ ctx.enum_implicits n → x.1 ≠ Designator.ident d

/-- Every `incomplete_types` entry holds an already-allocated entity id. -/
def mapWF (st : DState) : Prop :=
  ∀ n i p, (n, (i, p)) ∈ st.incomplete_types → i < st.arena.next

/-- No `incomplete_types` entry for a symbol other than `d` holds the id
`id₀`. -/
def mapAvoidsId (d : Nat) (id₀ : Nat) (st : DState) : Prop :=
  ∀ n i p, (n, (i, p)) ∈ st.incomplete_types → n ≠ d → i ≠ id₀

/-- A declaration context whose factories produce nothing (used by the
declarative witnesses). -/
def dctx0 : DeclContext := ⟨fun _ => []⟩

/-- An empty analyzer state. -/
def dst0 : DState := ⟨⟨0, []⟩, [], [], []⟩

/-- A full enumeration declaration of symbol `5` at position `200`. -/
def dFull5 : DDecl :=
  DDecl.typeDecl ⟨⟨5, 200, none⟩, DTypeDef.enumeration []⟩

/-- The declarations before the incomplete declaration in the
incomplete-upgrade witness: an unrelated incomplete type. -/
def c1pre : List DDecl :=
  [DDecl.typeDecl ⟨⟨4, 1, none⟩, DTypeDef.incomplete none⟩]

/-- The declarations between the incomplete and the full declaration in
the incomplete-upgrade witness: an unrelated enumeration. -/
def c1mid : List DDecl :=
  [DDecl.typeDecl ⟨⟨6, 2, none⟩,
     DTypeDef.enumeration [⟨Designator.ident 7, 3, none⟩]⟩]

/-- The declarations after the full declaration in the incomplete-upgrade
witness: another unrelated incomplete type. -/
def c1post : List DDecl :=
  [DDecl.typeDecl ⟨⟨8, 4, none⟩, DTypeDef.incomplete none⟩]

/-- The literals of the upgrading enumeration in the incomplete-upgrade
witness. -/
def c1lits : List DEnumLit := [⟨Designator.ident 2, 21, none⟩]

/-! # Theorems -/

/-! ## Claim C3 -/

/-- C3: in `disambiguate_op`, whenever more than one candidate remains
after filtering by operand types (and, when a target type is given, by
return type) with implicit universal conversion enabled, and all
remaining candidates share a single return base type, the operand-type
filter is re-run over the remaining candidates with implicit universal
conversion disabled, and the rest of the pipeline continues from its
result. -/
theorem C3_no_implicit_arg_refilter (ctx : AnalyzeContext)
    (ttyp : Option TypeEnt) (overloaded : List OverloadedEnt)
    (operand_types : List ExpressionType)
    (h1 : 1 < (stages_through_ret ctx ttyp overloaded operand_types).length)
    (h2 : (returnBases (stages_through_ret ctx ttyp overloaded operand_types)).length = 1) :
    disambiguate_op_candidates ctx ttyp overloaded operand_types =
      stage_restore ctx overloaded operand_types
        (stage_universal ctx ttyp
          (disambiguate_op_by_arguments false ctx
            (stages_through_ret ctx ttyp overloaded operand_types)
            operand_types)) := by
  unfold disambiguate_op_candidates stages_through_ret stage_no_implicit_args at *
  simp only [h1, if_true, h2]
  simp

/-- Witness for C3 at a concrete input (two candidates with formals
`bit_vector`/`string`, both returning `integer`, applied to a string
literal against an integer target). -/
theorem C3_no_implicit_arg_refilter_witness :
    (1 < (stages_through_ret ctx0 (some (TypeEnt.ofBase intB)) [candBitv, candStr]
        [ExpressionType.stringLit]).length) ∧
    ((returnBases (stages_through_ret ctx0 (some (TypeEnt.ofBase intB))
        [candBitv, candStr] [ExpressionType.stringLit])).length = 1) ∧
    disambiguate_op_candidates ctx0 (some (TypeEnt.ofBase intB))
        [candBitv, candStr] [ExpressionType.stringLit] =
      stage_restore ctx0 [candBitv, candStr] [ExpressionType.stringLit]
        (stage_universal ctx0 (some (TypeEnt.ofBase intB))
          (disambiguate_op_by_arguments false ctx0
            (stages_through_ret ctx0 (some (TypeEnt.ofBase intB))
              [candBitv, candStr] [ExpressionType.stringLit])
            [ExpressionType.stringLit])) :=
  ⟨by decide, by decide,
   C3_no_implicit_arg_refilter ctx0 (some (TypeEnt.ofBase intB))
     [candBitv, candStr] [ExpressionType.stringLit] (by decide) (by decide)⟩

/-! ## Claim C4 -/

/-- C4 counterexample: with no target type and two remaining candidates —
one returning the concrete integer type, one returning universal integer,
both viable for a universal-integer operand — the candidate with the
non-universal return type is dropped and the universal one survives, so
the non-universal is *not* preferred when both are viable. -/
theorem C4_counterexample :
    disambiguate_op_candidates ctx0 none [candInt, candUniv]
        [ExpressionType.unambiguous (TypeEnt.ofBase uintB)] = [candUniv] ∧
    candInt ≠ candUniv := by decide

/-- C4 (amended): when multiple candidates remain after the
no-implicit-cast argument re-filter: with no target type, every candidate
whose return base type is a non-universal integer or real whose
corresponding universal type is also present among the remaining
candidates' return base types is dropped (so the universal, not the
non-universal, is preferred when both are viable); with a target type,
the return-type filter is instead re-run with implicit cast disabled.
The rest of the pipeline continues from the result. -/
theorem C4_universal_preference (ctx : AnalyzeContext) (ttyp : Option TypeEnt)
    (overloaded : List OverloadedEnt) (operand_types : List ExpressionType)
    (h : 1 < (stages_through_no_implicit ctx ttyp overloaded operand_types).length) :
    disambiguate_op_candidates ctx ttyp overloaded operand_types =
      stage_restore ctx overloaded operand_types
        (match ttyp with
         | some _ =>
           disambiguate_op_by_return_type false ctx
             (stages_through_no_implicit ctx ttyp overloaded operand_types) ttyp
         | none =>
           (stages_through_no_implicit ctx ttyp overloaded operand_types).filter
             (fun cand =>
               match as_universal ctx cand.retBase with
               | some univ =>
                 !((returnBases
                     (stages_through_no_implicit ctx ttyp overloaded
                       operand_types)).contains univ)
               | none => true)) := by
  unfold disambiguate_op_candidates stages_through_no_implicit
    stages_through_ret at *
  unfold stage_universal
  simp only [h, if_true]
  cases ttyp <;> rfl

/-- Witness for C4 at a concrete input: the integer-returning and the
universal-integer-returning candidates both survive through stage 4, the
target type is absent, and the pipeline drops the integer-returning
candidate. -/
theorem C4_universal_preference_witness :
    (1 < (stages_through_no_implicit ctx0 none [candInt, candUniv]
        [ExpressionType.unambiguous (TypeEnt.ofBase uintB)]).length) ∧
    disambiguate_op_candidates ctx0 none [candInt, candUniv]
        [ExpressionType.unambiguous (TypeEnt.ofBase uintB)] =
      stage_restore ctx0 [candInt, candUniv]
        [ExpressionType.unambiguous (TypeEnt.ofBase uintB)]
        ((stages_through_no_implicit ctx0 none [candInt, candUniv]
            [ExpressionType.unambiguous (TypeEnt.ofBase uintB)]).filter
          (fun cand =>
            match as_universal ctx0 cand.retBase with
            | some univ =>
              !((returnBases
                  (stages_through_no_implicit ctx0 none [candInt, candUniv]
                    [ExpressionType.unambiguous (TypeEnt.ofBase uintB)])).contains
                univ)
            | none => true)) :=
  ⟨by decide,
   C4_universal_preference ctx0 none [candInt, candUniv]
     [ExpressionType.unambiguous (TypeEnt.ofBase uintB)] (by decide)⟩

/-! ## Claim C5 -/

/-- C5: a bare integer literal is forward-typed as
`Unambiguous(universal integer)` with no diagnostic; backward-typed
against any integer target it succeeds without a diagnostic; against any
non-numeric target it emits exactly a type-mismatch diagnostic. -/
theorem C5_integer_literal_typing (fuel : Nat) (ctx : AnalyzeContext)
    (scope : Scope) (n : Nat) (ttypInt ttypOther : TypeEnt)
    (hInt : ttypInt.base.is_any_integer = true)
    (hO1 : ttypOther.base.is_any_integer = false)
    (hO2 : ttypOther.base.is_any_real = false) :
    expr_type (fuel+1) ctx scope (Expr.literal (Literal.intLit n)) =
      (some (ExpressionType.unambiguous (TypeEnt.ofBase ctx.universal_integer)), []) ∧
    expr_with_ttyp (fuel+1) ctx scope ttypInt (Expr.literal (Literal.intLit n)) = [] ∧
    expr_with_ttyp (fuel+1) ctx scope ttypOther (Expr.literal (Literal.intLit n)) =
      [Diag.typeMismatch (TypeEnt.ofBase ctx.universal_integer) ttypOther] := by
  refine ⟨rfl, ?_, ?_⟩ <;>
    simp [expr_with_ttyp, analyze_literal_with_target_type, hInt, hO1, hO2]

/-- Witness for C5: the literal `7` against the integer type and against
boolean. -/
theorem C5_integer_literal_typing_witness :
    ((TypeEnt.ofBase intB).base.is_any_integer = true) ∧
    ((TypeEnt.ofBase boolB).base.is_any_integer = false) ∧
    ((TypeEnt.ofBase boolB).base.is_any_real = false) ∧
    (expr_type 1 ctx0 scope0 (Expr.literal (Literal.intLit 7)) =
      (some (ExpressionType.unambiguous (TypeEnt.ofBase ctx0.universal_integer)), []) ∧
     expr_with_ttyp 1 ctx0 scope0 (TypeEnt.ofBase intB)
        (Expr.literal (Literal.intLit 7)) = [] ∧
     expr_with_ttyp 1 ctx0 scope0 (TypeEnt.ofBase boolB)
        (Expr.literal (Literal.intLit 7)) =
      [Diag.typeMismatch (TypeEnt.ofBase ctx0.universal_integer)
        (TypeEnt.ofBase boolB)]) :=
  ⟨by decide, by decide, by decide,
   C5_integer_literal_typing 0 ctx0 scope0 7 (TypeEnt.ofBase intB)
     (TypeEnt.ofBase boolB) (by decide) (by decide) (by decide)⟩

/-! ## Claim C8 -/

/-- C8: return statements per sequential root: under `Function(t)` a
return with an expression types the expression against `t` and a return
without one emits a diagnostic; under `Procedure` a return carrying an
expression emits a diagnostic (and a bare return none); under `Process`
every return emits a diagnostic; under `Unknown` a return expression is
typed in unknown-target mode with no root-related diagnostic. -/
theorem C8_return_statements (fuel : Nat) (ctx : AnalyzeContext)
    (scope : Scope) (t : TypeEnt) (e : Expr) :
    analyze_sequential_statement fuel ctx scope (SequentialRoot.function t)
        (SequentialStatement.ret (some e)) = expr_with_ttyp fuel ctx scope t e ∧
    analyze_sequential_statement fuel ctx scope (SequentialRoot.function t)
        (SequentialStatement.ret none) =
      [Diag.functionsCannotReturnWithoutValue] ∧
    analyze_sequential_statement fuel ctx scope SequentialRoot.procedure
        (SequentialStatement.ret (some e)) = [Diag.proceduresCannotReturnValue] ∧
    analyze_sequential_statement fuel ctx scope SequentialRoot.procedure
        (SequentialStatement.ret none) = [] ∧
    (∀ oe, analyze_sequential_statement fuel ctx scope SequentialRoot.process
        (SequentialStatement.ret oe) = [Diag.cannotReturnFromProcess]) ∧
    analyze_sequential_statement fuel ctx scope SequentialRoot.unknown
        (SequentialStatement.ret (some e)) = expr_unknown_ttyp fuel ctx scope e ∧
    analyze_sequential_statement fuel ctx scope SequentialRoot.unknown
        (SequentialStatement.ret none) = [] :=
  ⟨rfl, rfl, rfl, rfl, fun _ => rfl, rfl, rfl⟩

/-! ## Claim C10 -/

/-- C10: for the matching relational operators `?=`, `?/=`, `?<`, `?<=`,
`?>`, `?>=`: forward typing returns the unknown result with no
diagnostic, independently of the scope (so without looking the operator
up) and of the operands; and backward typing of a binary expression with
such an operator types both operands in unknown-target mode,
independently of the target type. -/
theorem C10_matching_relational_skipped (fuel : Nat) (ctx : AnalyzeContext)
    (scope : Scope) (op : Operator) (r? : Option OverloadedEnt)
    (exprs : List Expr) (l r : Expr) (ttyp : TypeEnt)
    (hop : op = Operator.queEQ ∨ op = Operator.queNE ∨ op = Operator.queGT ∨
      op = Operator.queGTE ∨ op = Operator.queLT ∨ op = Operator.queLTE) :
    operator_type (fuel+1) ctx scope ⟨op, r?⟩ exprs = (none, []) ∧
    expr_type (fuel+1) ctx scope (Expr.binary ⟨op, r?⟩ l r) = (none, []) ∧
    expr_with_ttyp (fuel+1) ctx scope ttyp (Expr.binary ⟨op, r?⟩ l r) =
      expr_unknown_ttyp fuel ctx scope l ++ expr_unknown_ttyp fuel ctx scope r := by
  have hch : can_handle op = false := by
    rcases hop with h | h | h | h | h | h <;> subst h <;> rfl
  refine ⟨?_, ?_, ?_⟩
  · simp [operator_type, hch]
  · cases fuel with
    | zero => rfl
    | succ k => simp [expr_type, operator_type, hch]
  · simp [expr_with_ttyp, hch, expr_unknown_ttyp]

/-- Witness for C10 at `?=` applied to two integer literals against a
boolean target, in a scope where `?=` is even declared (showing the
lookup is not consulted). -/
theorem C10_matching_relational_skipped_witness :
    (Operator.queEQ = Operator.queEQ ∨ Operator.queEQ = Operator.queNE ∨
     Operator.queEQ = Operator.queGT ∨ Operator.queEQ = Operator.queGTE ∨
     Operator.queEQ = Operator.queLT ∨ Operator.queEQ = Operator.queLTE) ∧
    (operator_type 3 ctx0 scope7 ⟨Operator.queEQ, none⟩
        [Expr.literal (Literal.intLit 0), Expr.literal (Literal.intLit 1)] =
      (none, []) ∧
     expr_type 3 ctx0 scope7
        (Expr.binary ⟨Operator.queEQ, none⟩ (Expr.literal (Literal.intLit 0))
          (Expr.literal (Literal.intLit 1))) = (none, []) ∧
     expr_with_ttyp 3 ctx0 scope7 (TypeEnt.ofBase boolB)
        (Expr.binary ⟨Operator.queEQ, none⟩ (Expr.literal (Literal.intLit 0))
          (Expr.literal (Literal.intLit 1))) =
      expr_unknown_ttyp 2 ctx0 scope7 (Expr.literal (Literal.intLit 0)) ++
        expr_unknown_ttyp 2 ctx0 scope7 (Expr.literal (Literal.intLit 1))) :=
  ⟨Or.inl rfl,
   C10_matching_relational_skipped 2 ctx0 scope7 Operator.queEQ none
     [Expr.literal (Literal.intLit 0), Expr.literal (Literal.intLit 1)]
     (Expr.literal (Literal.intLit 0)) (Expr.literal (Literal.intLit 1))
     (TypeEnt.ofBase boolB) (Or.inl rfl)⟩

/-! ## Claim C7 -/

/-- C7 exhibit: the forward type of `- 0` under `scope7` is ambiguous
between `enumA` and `enumB`; boolean is not among the candidates; the
intersection of the candidate set with the `??`-types is exactly
`[enumB]`; yet `boolean_expr` re-types the expression against the *first
element of the full candidate set* (`enumA`) and ends with a
"Found no match" diagnostic, while re-typing against the single
intersected type `enumB` — what the claim prescribes — produces no
diagnostic. -/
theorem C7_retype_target_bug :
    expr_type 5 ctx0 scope7 expr7 =
      (some (ExpressionType.ambiguous [enumA, enumB]), []) ∧
    ((implicit_bool_types scope7).filter
      (fun t => [enumA, enumB].contains t)) = [enumB] ∧
    boolean_expr 5 ctx0 scope7 expr7 = [Diag.foundNoMatch Operator.minus] ∧
    expr_with_ttyp 5 ctx0 scope7 (TypeEnt.ofBase enumB) expr7 = [] := by decide

/-! ## Claim C9 -/

/-- C9: every entity copied by `instantiate` keeps the uninstantiated
entity's designator and declaration position, its related link is
instance-of the uninstantiated entity, its kind is exactly the result of
`map_kind`, and its implicit children are exactly the recursively
instantiated implicit children of the uninstantiated entity, in order. -/
theorem C9_instantiate_frame (fuel : Nat) (mapping : PMap) (nid : Nat)
    (uninst inst : PEnt) (nid' : Nat)
    (h : instantiate (fuel+1) mapping nid uninst = Except.ok (inst, nid')) :
    inst.designator = uninst.designator ∧
    inst.declPos = uninst.declPos ∧
    inst.related = PRelated.instanceOf uninst ∧
    ∃ nid1, map_kind fuel mapping nid uninst.kind = Except.ok (inst.kind, nid1) ∧
      inst.id = nid1 ∧
      instantiate_list fuel mapping (nid1+1) uninst.implicits =
        Except.ok (inst.implicits, nid') := by
  unfold instantiate at h
  cases hk : map_kind fuel mapping nid uninst.kind with
  | error e => rw [hk] at h; simp at h
  | ok kp =>
    obtain ⟨kind, nid1⟩ := kp
    rw [hk] at h
    dsimp only at h
    cases hl : instantiate_list fuel mapping (nid1+1) uninst.implicits with
    | error e => rw [hl] at h; simp at h
    | ok lp =>
      obtain ⟨impls, nid2⟩ := lp
      rw [hl] at h
      simp only [Except.ok.injEq, Prod.mk.injEq] at h
      obtain ⟨hinst, hnid⟩ := h
      subst hinst
      subst hnid
      refine ⟨rfl, rfl, rfl, nid1, ?_, rfl, ?_⟩
      · rfl
      · exact hl

/-- Witness for C9: instantiating a label entity under the empty
mapping. -/
theorem C9_instantiate_frame_witness :
    iLabel.designator = uLabel.designator ∧
    iLabel.declPos = uLabel.declPos ∧
    iLabel.related = PRelated.instanceOf uLabel ∧
    ∃ nid1, map_kind 1 [] 0 uLabel.kind = Except.ok (iLabel.kind, nid1) ∧
      iLabel.id = nid1 ∧
      instantiate_list 1 [] (nid1+1) uLabel.implicits =
        Except.ok (iLabel.implicits, 1) :=
  C9_instantiate_frame 1 [] 0 uLabel iLabel 1 (by simp [instantiate, map_kind, instantiate_list, uLabel, iLabel, PEnt.kind, PEnt.implicits, PEnt.designator, PEnt.declPos])

/-! ## Claim C6 -/

/-- C6: when the incomplete-type pass meets an incomplete type
declaration whose symbol is fresh, it searches only the remaining
declarations for a non-incomplete type declaration with the same symbol;
if one exists the incomplete entity is created with that declaration's
identifier position and no missing-declaration diagnostic; otherwise
exactly one missing-full-type diagnostic anchored at the incomplete
declaration's identifier is emitted and the entity keeps the incomplete
declaration's own position; in both cases the freshly allocated entity id
is written into the AST reference slot, the symbol is recorded in the
incomplete-types map and the entity is added to the scope. -/
theorem C6_incomplete_fresh_symbol (ctx : DeclContext) (st : DState)
    (ident : DIdent) (reference : Option Nat) (remaining : List DDecl)
    (hfresh : ilookup st.incomplete_types ident.name = none)
    (hreg : rlookup st.region (Designator.ident ident.name) = none) :
    process_decl ctx st (DDecl.typeDecl ⟨ident, DTypeDef.incomplete reference⟩)
        remaining =
      (⟨⟨st.arena.next + 1,
         aset st.arena.ents st.arena.next
           ⟨Designator.ident ident.name, DEntKind.typeIncomplete,
            some (match find_full_type_definition ident.name remaining with
                  | some full_decl => full_decl.ident.pos
                  | none => ident.pos), []⟩⟩,
        st.region ++ [(Designator.ident ident.name, DRegEntry.single st.arena.next)],
        st.incomplete_types ++ [(ident.name, (st.arena.next, ident.pos))],
        st.diags ++ (match find_full_type_definition ident.name remaining with
                     | some _ => []
                     | none => [DDiag.missingFullType ident.name ident.pos])⟩,
       DDecl.typeDecl ⟨ident, DTypeDef.incomplete (some st.arena.next)⟩) := by
  unfold process_decl
  dsimp only
  rw [hfresh]
  unfold arena_explicit region_add
  dsimp only
  rw [hreg]
  cases hf : find_full_type_definition ident.name remaining <;>
    simp [hf, DEntKind.isOverloadable]

/-- Witness for C6: an incomplete type of symbol `5` at position `100`
whose full declaration follows among the remaining declarations. -/
theorem C6_incomplete_fresh_symbol_witness :
    (ilookup dst0.incomplete_types 5 = none) ∧
    (rlookup dst0.region (Designator.ident 5) = none) ∧
    process_decl dctx0 dst0
        (DDecl.typeDecl ⟨⟨5, 100, none⟩, DTypeDef.incomplete none⟩) [dFull5] =
      (⟨⟨dst0.arena.next + 1,
         aset dst0.arena.ents dst0.arena.next
           ⟨Designator.ident 5, DEntKind.typeIncomplete,
            some (match find_full_type_definition 5 [dFull5] with
                  | some full_decl => full_decl.ident.pos
                  | none => 100), []⟩⟩,
        dst0.region ++ [(Designator.ident 5, DRegEntry.single dst0.arena.next)],
        dst0.incomplete_types ++ [(5, (dst0.arena.next, 100))],
        dst0.diags ++ (match find_full_type_definition 5 [dFull5] with
                       | some _ => []
                       | none => [DDiag.missingFullType 5 100])⟩,
       DDecl.typeDecl ⟨⟨5, 100, none⟩, DTypeDef.incomplete (some dst0.arena.next)⟩) :=
  ⟨rfl, rfl,
   C6_incomplete_fresh_symbol dctx0 dst0 ⟨5, 100, none⟩ none [dFull5] rfl rfl⟩

/-! ## Lookup and store lemmas for the declarative slice -/

theorem ilookup_append (l l' : List (Nat × (Nat × Nat))) (x : Nat) :
    ilookup (l ++ l') x =
      (match ilookup l x with
       | some v => some v
       | none => ilookup l' x) := by
  induction l with
  | nil => rfl
  | cons hd tl ih =>
    obtain ⟨k, v⟩ := hd
    by_cases hk : k = x
    · subst hk; simp [ilookup]
    · simp [ilookup, hk, ih]

theorem rlookup_append (l l' : DRegion) (x : Designator) :
    rlookup (l ++ l') x =
      (match rlookup l x with
       | some v => some v
       | none => rlookup l' x) := by
  induction l with
  | nil => rfl
  | cons hd tl ih =>
    obtain ⟨k, v⟩ := hd
    by_cases hk : k = x
    · subst hk; simp [rlookup]
    · simp [rlookup, hk, ih]

theorem alookup_aset_ne (l : List (Nat × DEnt)) (i k : Nat) (e : DEnt)
    (h : k ≠ i) : alookup (aset l i e) k = alookup l k := by
  induction l with
  | nil => simp [aset, alookup, Ne.symm h]
  | cons hd tl ih =>
    obtain ⟨k0, v0⟩ := hd
    by_cases hk : k0 = i
    · subst hk
      simp [aset, alookup, Ne.symm h]
    · by_cases hx : k0 = k
      · subst hx; simp [aset, alookup, hk]
      · simp [aset, alookup, hk, hx, ih]

theorem alookup_aset_eq (l : List (Nat × DEnt)) (i : Nat) (e : DEnt) :
    alookup (aset l i e) i = some e := by
  induction l with
  | nil => simp [aset, alookup]
  | cons hd tl ih =>
    obtain ⟨k0, v0⟩ := hd
    by_cases hk : k0 = i
    · subst hk; simp [aset, alookup]
    · simp [aset, alookup, hk, ih]

theorem rlookup_map_update (r : DRegion) (d0 x : Designator)
    (v1 : DRegEntry) (h : x ≠ d0) :
    rlookup (region_update d0 v1 r) x = rlookup r x := by
  induction r with
  | nil => rfl
  | cons hd tl ih =>
    obtain ⟨k, v⟩ := hd
    by_cases hk : k = d0
    · subst hk
      simp [region_update, rlookup, Ne.symm h, ih]
    · by_cases hx : k = x
      · subst hx; simp [region_update, rlookup, hk]
      · simp [region_update, rlookup, hk, hx, ih]

theorem rlookup_region_add_ne (r : DRegion) (id : Nat) (ent : DEnt)
    (x : Designator) (h : x ≠ ent.designator) :
    rlookup (region_add r id ent).1 x = rlookup r x := by
  unfold region_add
  cases hr : rlookup r ent.designator with
  | none =>
    simp only
    rw [rlookup_append]
    cases hx : rlookup r x <;> simp [rlookup, Ne.symm h]
  | some entry =>
    cases entry with
    | single id0 =>
      by_cases hid : id0 = id <;> simp [hid]
    | overloadedE es =>
      by_cases hov : ent.kind.isOverloadable
      · by_cases hdup : es.any (fun p => p.2.sigKey == ent.kind.sigKey)
        · simp [hov, hdup]
        · simp only [hov, hdup, Bool.false_eq_true, if_false, if_true]
          exact rlookup_map_update r ent.designator x _ h
      · simp [hov]

theorem region_add_same_single (r : DRegion) (id : Nat) (ent : DEnt)
    (h : rlookup r ent.designator = some (DRegEntry.single id)) :
    region_add r id ent = (r, []) := by
  unfold region_add
  rw [h]
  simp

theorem arena_add_implicit_next (a : DArena) (p c : Nat) :
    (arena_add_implicit a p c).next = a.next := by
  unfold arena_add_implicit
  cases alookup a.ents p <;> rfl

theorem arena_add_implicit_ne (a : DArena) (p c k : Nat) (h : k ≠ p) :
    alookup (arena_add_implicit a p c).ents k = alookup a.ents k := by
  unfold arena_add_implicit
  cases hp : alookup a.ents p with
  | none => rfl
  | some e => simpa using alookup_aset_ne a.ents p k _ h

theorem arena_add_implicit_eq (a : DArena) (p c : Nat) (e : DEnt)
    (h : alookup a.ents p = some e) :
    alookup (arena_add_implicit a p c).ents p =
      some ⟨e.designator, e.kind, e.declPos, e.implicits ++ [c]⟩ := by
  unfold arena_add_implicit
  rw [h]
  simpa using alookup_aset_eq a.ents p _

/-! ## Frame lemmas for the declarative loops -/

theorem add_enum_literals_frame (d enumId : Nat) (lits : List DEnumLit) :
    ∀ st : DState, (∀ l ∈ lits, l.des ≠ Designator.ident d) →
    rlookup (add_enum_literals st enumId lits).1.region (Designator.ident d) =
        rlookup st.region (Designator.ident d) ∧
    (add_enum_literals st enumId lits).1.incomplete_types =
        st.incomplete_types ∧
    st.arena.next ≤ (add_enum_literals st enumId lits).1.arena.next ∧
    (∀ k, k < st.arena.next → k ≠ enumId →
      alookup (add_enum_literals st enumId lits).1.arena.ents k =
        alookup st.arena.ents k) ∧
    (∀ e, alookup st.arena.ents enumId = some e → enumId < st.arena.next →
      ∃ imp, alookup (add_enum_literals st enumId lits).1.arena.ents enumId =
        some ⟨e.designator, e.kind, e.declPos, imp⟩) := by
  induction lits with
  | nil =>
    intro st _
    refine ⟨rfl, rfl, Nat.le_refl _, fun k _ _ => rfl,
      fun e he _ => ⟨e.implicits, ?_⟩⟩
    simp only [add_enum_literals]
    rw [he]
  | cons lit rest ih =>
    intro st hl
    have hdes : lit.des ≠ Designator.ident d := hl lit (List.mem_cons_self lit rest)
    have hrest : ∀ l ∈ rest, l.des ≠ Designator.ident d :=
      fun l hm => hl l (List.mem_cons_of_mem lit hm)
    simp only [add_enum_literals]
    set kind := DEntKind.enumLiteral [] (some enumId) with hkind
    set litId := (arena_explicit st.arena lit.des kind (some lit.pos)).1 with hlit
    set arena2 :=
      arena_add_implicit (arena_explicit st.arena lit.des kind (some lit.pos)).2
        enumId litId with harena2
    set ra := region_add st.region litId ⟨lit.des, kind, some lit.pos, []⟩ with hra
    set st1 : DState := ⟨arena2, ra.1, st.incomplete_types, st.diags ++ ra.2⟩
      with hst1
    obtain ⟨ihreg, ihmap, ihnext, ihk, ihe⟩ := ih st1 hrest
    have hnext2 : st1.arena.next = st.arena.next + 1 := by
      simp [hst1, harena2, arena_add_implicit_next, arena_explicit]
    have hreg1 : rlookup st1.region (Designator.ident d) =
        rlookup st.region (Designator.ident d) := by
      simpa [hst1, hra] using
        rlookup_region_add_ne st.region litId ⟨lit.des, kind, some lit.pos, []⟩
          (Designator.ident d) (Ne.symm hdes)
    have hk1 : ∀ k, k < st.arena.next → k ≠ enumId →
        alookup st1.arena.ents k = alookup st.arena.ents k := by
      intro k hklt hkne
      have h1 : alookup arena2.ents k =
          alookup (arena_explicit st.arena lit.des kind (some lit.pos)).2.ents k :=
        arena_add_implicit_ne _ enumId litId k hkne
      have h2 : alookup (arena_explicit st.arena lit.des kind (some lit.pos)).2.ents k =
          alookup st.arena.ents k := by
        simp only [arena_explicit]
        exact alookup_aset_ne st.arena.ents st.arena.next k _ (Nat.ne_of_lt hklt)
      simp [hst1, h1, h2]
    refine ⟨?_, ?_, ?_, ?_, ?_⟩
    · rw [ihreg, hreg1]
    · rw [ihmap]
    · have h := ihnext
      rw [hnext2] at h
      omega
    · intro k hklt hkne
      rw [ihk k (by rw [hnext2]; omega) hkne, hk1 k hklt hkne]
    · intro e he hid
      have h1 : alookup (arena_explicit st.arena lit.des kind (some lit.pos)).2.ents
          enumId = some e := by
        simp only [arena_explicit]
        exact (alookup_aset_ne st.arena.ents st.arena.next enumId _
          (Nat.ne_of_lt hid)).trans he
      have h2 : alookup st1.arena.ents enumId =
          some ⟨e.designator, e.kind, e.declPos, e.implicits ++ [litId]⟩ := by
        simpa [hst1] using arena_add_implicit_eq _ enumId litId e h1
      obtain ⟨imp, himp⟩ := ihe _ h2 (by rw [hnext2]; omega)
      exact ⟨imp, himp⟩

theorem add_implicits_frame (d parent : Nat)
    (impls : List (Designator × DEntKind)) :
    ∀ st : DState, (∀ x ∈ impls, x.1 ≠ Designator.ident d) →
    rlookup (add_implicits st parent impls).region (Designator.ident d) =
        rlookup st.region (Designator.ident d) ∧
    (add_implicits st parent impls).incomplete_types = st.incomplete_types ∧
    st.arena.next ≤ (add_implicits st parent impls).arena.next ∧
    (∀ k, k < st.arena.next → k ≠ parent →
      alookup (add_implicits st parent impls).arena.ents k =
        alookup st.arena.ents k) ∧
    (∀ e, alookup st.arena.ents parent = some e → parent < st.arena.next →
      ∃ imp, alookup (add_implicits st parent impls).arena.ents parent =
        some ⟨e.designator, e.kind, e.declPos, imp⟩) := by
  induction impls with
  | nil =>
    intro st _
    refine ⟨rfl, rfl, Nat.le_refl _, fun k _ _ => rfl,
      fun e he _ => ⟨e.implicits, ?_⟩⟩
    simp only [add_implicits]
    rw [he]
  | cons x rest ih =>
    intro st hl
    obtain ⟨des, kind⟩ := x
    have hdes : des ≠ Designator.ident d := hl (des, kind) (List.mem_cons_self _ rest)
    have hrest : ∀ y ∈ rest, y.1 ≠ Designator.ident d :=
      fun y hm => hl y (List.mem_cons_of_mem _ hm)
    simp only [add_implicits]
    set implId := (arena_explicit st.arena des kind none).1 with himpl
    set arena2 :=
      arena_add_implicit (arena_explicit st.arena des kind none).2 parent implId
      with harena2
    set ra := region_add st.region implId ⟨des, kind, none, []⟩ with hra
    set st1 : DState := ⟨arena2, ra.1, st.incomplete_types, st.diags ++ ra.2⟩
      with hst1
    obtain ⟨ihreg, ihmap, ihnext, ihk, ihe⟩ := ih st1 hrest
    have hnext2 : st1.arena.next = st.arena.next + 1 := by
      simp [hst1, harena2, arena_add_implicit_next, arena_explicit]
    have hreg1 : rlookup st1.region (Designator.ident d) =
        rlookup st.region (Designator.ident d) := by
      simpa [hst1, hra] using
        rlookup_region_add_ne st.region implId ⟨des, kind, none, []⟩
          (Designator.ident d) (Ne.symm hdes)
    have hk1 : ∀ k, k < st.arena.next → k ≠ parent →
        alookup st1.arena.ents k = alookup st.arena.ents k := by
      intro k hklt hkne
      have h1 : alookup arena2.ents k =
          alookup (arena_explicit st.arena des kind none).2.ents k :=
        arena_add_implicit_ne _ parent implId k hkne
      have h2 : alookup (arena_explicit st.arena des kind none).2.ents k =
          alookup st.arena.ents k := by
        simp only [arena_explicit]
        exact alookup_aset_ne st.arena.ents st.arena.next k _ (Nat.ne_of_lt hklt)
      simp [hst1, h1, h2]
    refine ⟨?_, ?_, ?_, ?_, ?_⟩
    · rw [ihreg, hreg1]
    · rw [ihmap]
    · have h := ihnext
      rw [hnext2] at h
      omega
    · intro k hklt hkne
      rw [ihk k (by rw [hnext2]; omega) hkne, hk1 k hklt hkne]
    · intro e he hid
      have h1 : alookup (arena_explicit st.arena des kind none).2.ents parent =
          some e := by
        simp only [arena_explicit]
        exact (alookup_aset_ne st.arena.ents st.arena.next parent _
          (Nat.ne_of_lt hid)).trans he
      have h2 : alookup st1.arena.ents parent =
          some ⟨e.designator, e.kind, e.declPos, e.implicits ++ [implId]⟩ := by
        simpa [hst1] using arena_add_implicit_eq _ parent implId e h1
      obtain ⟨imp, himp⟩ := ihe _ h2 (by rw [hnext2]; omega)
      exact ⟨imp, himp⟩

theorem analyze_enumeration_frame (ctx : DeclContext) (d : Nat)
    (st : DState) (overwrite_id : Option Nat) (ident : DIdent)
    (lits : List DEnumLit)
    (hctx : factoryAvoids d ctx)
    (hident : ident.name ≠ d)
    (hlits : ∀ l ∈ lits, l.des ≠ Designator.ident d) :
    rlookup (analyze_enumeration ctx st overwrite_id ident lits).1.region
        (Designator.ident d) = rlookup st.region (Designator.ident d) ∧
    (analyze_enumeration ctx st overwrite_id ident lits).1.incomplete_types =
        st.incomplete_types ∧
    st.arena.next ≤
        (analyze_enumeration ctx st overwrite_id ident lits).1.arena.next ∧
    (∀ id₀, id₀ < st.arena.next → (∀ i, overwrite_id = some i → i ≠ id₀) →
      alookup (analyze_enumeration ctx st overwrite_id ident lits).1.arena.ents
          id₀ = alookup st.arena.ents id₀) := by
  simp only [analyze_enumeration]
  set ek := DEntKind.typeEnum (lits.map DEnumLit.des) with hek
  set enumId := (arena_define_with_opt_id st.arena overwrite_id
    (Designator.ident ident.name) ek (some ident.pos)).1 with henum
  set arena1 := (arena_define_with_opt_id st.arena overwrite_id
    (Designator.ident ident.name) ek (some ident.pos)).2 with harena1
  set st1 : DState := ⟨arena1, st.region, st.incomplete_types, st.diags⟩ with hst1
  have hnext1 : st.arena.next ≤ st1.arena.next := by
    cases overwrite_id with
    | none =>
      simp [hst1, harena1, arena_define_with_opt_id, arena_explicit]
    | some i => simp [hst1, harena1, arena_define_with_opt_id]
  obtain ⟨lreg, lmap, lnext, lk, _⟩ :=
    add_enum_literals_frame d enumId lits st1 hlits
  set stL := (add_enum_literals st1 enumId lits).1 with hstL
  set ra := region_add stL.region enumId
    ⟨Designator.ident ident.name, ek, some ident.pos, []⟩ with hra
  set st3 : DState := ⟨stL.arena, ra.1, stL.incomplete_types, stL.diags ++ ra.2⟩
    with hst3
  have hreg3 : rlookup st3.region (Designator.ident d) =
      rlookup st.region (Designator.ident d) := by
    have hne : Designator.ident d ≠
        (⟨Designator.ident ident.name, ek, some ident.pos, []⟩ : DEnt).designator := by
      intro hh
      injection hh with hh'
      exact hident hh'.symm
    have h1 : rlookup ra.1 (Designator.ident d) =
        rlookup stL.region (Designator.ident d) :=
      rlookup_region_add_ne stL.region enumId _ (Designator.ident d) hne
    show rlookup ra.1 (Designator.ident d) = _
    rw [h1, lreg]
  obtain ⟨ireg, imap, inext, ik, _⟩ :=
    add_implicits_frame d enumId (ctx.enum_implicits enumId) st3
      (fun x hx => hctx enumId x hx)
  refine ⟨?_, ?_, ?_, ?_⟩
  · rw [ireg, hreg3]
  · rw [imap]
    show stL.incomplete_types = _
    rw [lmap]
  · calc st.arena.next ≤ st1.arena.next := hnext1
      _ ≤ stL.arena.next := lnext
      _ ≤ _ := inext
  · intro id₀ hid how
    have hB : id₀ < st1.arena.next := Nat.lt_of_lt_of_le hid hnext1
    have hD : enumId ≠ id₀ := by
      cases ho : overwrite_id with
      | none =>
        simp only [henum, ho, arena_define_with_opt_id, arena_explicit]
        omega
      | some i =>
        simp only [henum, ho, arena_define_with_opt_id]
        exact how i ho
    have hC : alookup st1.arena.ents id₀ = alookup st.arena.ents id₀ := by
      cases ho : overwrite_id with
      | none =>
        simp only [hst1, harena1, ho, arena_define_with_opt_id, arena_explicit]
        exact alookup_aset_ne st.arena.ents st.arena.next id₀ _ (Nat.ne_of_lt hid)
      | some i =>
        simp only [hst1, harena1, ho, arena_define_with_opt_id]
        exact alookup_aset_ne st.arena.ents i id₀ _ (Ne.symm (how i ho))
    have hBL : id₀ < stL.arena.next := Nat.lt_of_lt_of_le hB lnext
    have h4 : alookup st3.arena.ents id₀ = alookup st.arena.ents id₀ := by
      show alookup stL.arena.ents id₀ = _
      rw [lk id₀ hB (Ne.symm hD), hC]
    rw [ik id₀ hBL (Ne.symm hD), h4]

theorem ilookup_mem (l : List (Nat × (Nat × Nat))) (x : Nat) (v : Nat × Nat)
    (h : ilookup l x = some v) : (x, v) ∈ l := by
  induction l with
  | nil => simp [ilookup] at h
  | cons hd tl ih =>
    obtain ⟨k, w⟩ := hd
    by_cases hk : k = x
    · subst hk
      simp only [ilookup, if_pos rfl, Option.some.injEq] at h
      rw [if_pos trivial, Option.some.injEq] at h
      subst h
      exact List.mem_cons_self _ _
    · simp only [ilookup, if_neg hk] at h
      exact List.mem_cons_of_mem _ (ih h)

/-- Upgrading an incomplete type in place: the enumeration branch of
`analyze_type_declaration` with `overwrite_id = some id₀` leaves the
designator's scope entry as the same single entity id and stores the
enumeration kind in the arena under that id. -/
theorem analyze_enumeration_action (ctx : DeclContext) (d id₀ : Nat)
    (st : DState) (ident : DIdent) (lits : List DEnumLit)
    (hctx : factoryAvoids d ctx)
    (hident : ident.name = d)
    (hlits : ∀ l ∈ lits, l.des ≠ Designator.ident d)
    (hreg : rlookup st.region (Designator.ident d) = some (DRegEntry.single id₀))
    (hid : id₀ < st.arena.next) :
    rlookup (analyze_enumeration ctx st (some id₀) ident lits).1.region
        (Designator.ident d) = some (DRegEntry.single id₀) ∧
    (analyze_enumeration ctx st (some id₀) ident lits).1.incomplete_types =
        st.incomplete_types ∧
    id₀ < (analyze_enumeration ctx st (some id₀) ident lits).1.arena.next ∧
    (∃ imp, alookup (analyze_enumeration ctx st (some id₀) ident lits).1.arena.ents
        id₀ =
      some ⟨Designator.ident d, DEntKind.typeEnum (lits.map DEnumLit.des),
        some ident.pos, imp⟩) := by
  subst hident
  simp only [analyze_enumeration]
  set ek := DEntKind.typeEnum (lits.map DEnumLit.des) with hek
  set st1 : DState :=
    ⟨(arena_define_with_opt_id st.arena (some id₀)
        (Designator.ident ident.name) ek (some ident.pos)).2,
     st.region, st.incomplete_types, st.diags⟩ with hst1
  have henum : (arena_define_with_opt_id st.arena (some id₀)
      (Designator.ident ident.name) ek (some ident.pos)).1 = id₀ := rfl
  rw [henum]
  have hnext1 : st1.arena.next = st.arena.next := rfl
  have hent1 : alookup st1.arena.ents id₀ =
      some ⟨Designator.ident ident.name, ek, some ident.pos, []⟩ := by
    simp only [hst1, arena_define_with_opt_id]
    exact alookup_aset_eq st.arena.ents id₀ _
  obtain ⟨lreg, lmap, lnext, _, le'⟩ :=
    add_enum_literals_frame ident.name id₀ lits st1 hlits
  set stL := (add_enum_literals st1 id₀ lits).1 with hstL
  obtain ⟨imp1, himp1⟩ := le' _ hent1 (by rw [hnext1]; exact hid)
  have hregL : rlookup stL.region (Designator.ident ident.name) =
      some (DRegEntry.single id₀) := by
    rw [lreg]
    exact hreg
  have hrsame : region_add stL.region id₀
      (⟨Designator.ident ident.name, ek, some ident.pos, []⟩ : DEnt) =
      (stL.region, []) :=
    region_add_same_single stL.region id₀ _ hregL
  set st3 : DState :=
    ⟨stL.arena,
     (region_add stL.region id₀
        ⟨Designator.ident ident.name, ek, some ident.pos, []⟩).1,
     stL.incomplete_types,
     stL.diags ++
       (region_add stL.region id₀
          ⟨Designator.ident ident.name, ek, some ident.pos, []⟩).2⟩ with hst3
  have hreg3 : rlookup st3.region (Designator.ident ident.name) =
      some (DRegEntry.single id₀) := by
    show rlookup (region_add stL.region id₀ _).1 (Designator.ident ident.name) = _
    rw [hrsame]
    exact hregL
  have hent3 : alookup st3.arena.ents id₀ =
      some ⟨Designator.ident ident.name, ek, some ident.pos, imp1⟩ := himp1
  have hid3 : id₀ < st3.arena.next := by
    have : id₀ < stL.arena.next := by
      have := lnext
      rw [hnext1] at this
      omega
    exact this
  obtain ⟨ireg, imap, inext, _, ie'⟩ :=
    add_implicits_frame ident.name id₀ (ctx.enum_implicits id₀) st3
      (fun x hx => hctx id₀ x hx)
  obtain ⟨imp2, himp2⟩ := ie' _ hent3 hid3
  refine ⟨?_, ?_, ?_, ⟨imp2, ?_⟩⟩
  · rw [ireg, hreg3]
  · rw [imap]
    show stL.incomplete_types = _
    rw [lmap]
  · exact Nat.lt_of_lt_of_le hid3 inext
  · exact himp2

/-- Processing a declaration that does not involve the designator
`ident d` leaves the designator's scope entry, its `incomplete_types`
entry and (for any already-allocated id not held by a foreign map entry)
the arena entry unchanged, and preserves the well-formedness of the
map. -/
theorem process_decl_frame (ctx : DeclContext) (d : Nat) (st : DState)
    (decl : DDecl) (remaining : List DDecl)
    (hav : avoids d decl) (hctx : factoryAvoids d ctx) :
    rlookup (process_decl ctx st decl remaining).1.region (Designator.ident d) =
        rlookup st.region (Designator.ident d) ∧
    ilookup (process_decl ctx st decl remaining).1.incomplete_types d =
        ilookup st.incomplete_types d ∧
    st.arena.next ≤ (process_decl ctx st decl remaining).1.arena.next ∧
    (mapWF st → mapWF (process_decl ctx st decl remaining).1) ∧
    (∀ id₀, id₀ < st.arena.next → mapAvoidsId d id₀ st →
      alookup (process_decl ctx st decl remaining).1.arena.ents id₀ =
          alookup st.arena.ents id₀ ∧
        mapAvoidsId d id₀ (process_decl ctx st decl remaining).1) := by
  obtain ⟨td⟩ := decl
  obtain ⟨hname, hdef⟩ := hav
  cases htd : td.tdef with
  | incomplete r =>
    cases hi : ilookup st.incomplete_types td.ident.name with
    | none =>
      simp only [process_decl, htd, hi]
      have hne : Designator.ident d ≠
          (⟨Designator.ident td.ident.name, DEntKind.typeIncomplete,
            some (match find_full_type_definition td.ident.name remaining with
                  | some full_decl => full_decl.ident.pos
                  | none => td.ident.pos), []⟩ : DEnt).designator := by
        intro hh
        injection hh with hh'
        exact hname hh'.symm
      refine ⟨?_, ?_, ?_, ?_, ?_⟩
      · exact rlookup_region_add_ne st.region _ _ (Designator.ident d) hne
      · rw [ilookup_append]
        cases hx : ilookup st.incomplete_types d with
        | some v => rfl
        | none => simp [ilookup, hname]
      · simp [arena_explicit]
      · intro hwf n i p hm
        simp only [arena_explicit]
        rcases List.mem_append.1 hm with hm1 | hm2
        · exact Nat.lt_succ_of_lt (hwf n i p hm1)
        · simp [arena_explicit] at hm2
          omega
      · intro id₀ hid hmap
        constructor
        · simp only [arena_explicit]
          exact alookup_aset_ne st.arena.ents st.arena.next id₀ _ (Nat.ne_of_lt hid)
        · intro n i p hm hnd
          rcases List.mem_append.1 hm with hm1 | hm2
          · exact hmap n i p hm1 hnd
          · simp [arena_explicit] at hm2
            omega
    | some v =>
      obtain ⟨i0, p0⟩ := v
      simp only [process_decl, htd, hi]
      exact ⟨trivial, trivial, Nat.le_refl _, fun hwf => hwf,
        fun id₀ _ hmap => ⟨trivial, hmap⟩⟩
  | enumeration lits =>
    have hlits : ∀ l ∈ lits, l.des ≠ Designator.ident d := by
      rw [htd] at hdef
      exact hdef
    cases hi : ilookup st.incomplete_types td.ident.name with
    | none =>
      simp only [process_decl, htd, hi, analyze_type_declaration]
      obtain ⟨freg, fmap, fnext, fk⟩ :=
        analyze_enumeration_frame ctx d st none td.ident lits hctx hname hlits
      refine ⟨freg, by rw [fmap], fnext, ?_, ?_⟩
      · intro hwf n i p hm
        rw [fmap] at hm
        exact Nat.lt_of_lt_of_le (hwf n i p hm) fnext
      · intro id₀ hid hmap
        refine ⟨fk id₀ hid (fun i hi' => by cases hi'), ?_⟩
        intro n i p hm hnd
        rw [fmap] at hm
        exact hmap n i p hm hnd
    | some v =>
      obtain ⟨i0, p0⟩ := v
      simp only [process_decl, htd, hi, analyze_type_declaration]
      obtain ⟨freg, fmap, fnext, fk⟩ :=
        analyze_enumeration_frame ctx d st (some i0) td.ident lits hctx hname
          hlits
      refine ⟨freg, by rw [fmap], fnext, ?_, ?_⟩
      · intro hwf n i p hm
        rw [fmap] at hm
        exact Nat.lt_of_lt_of_le (hwf n i p hm) fnext
      · intro id₀ hid hmap
        have hi0 : i0 ≠ id₀ := by
          have hmem : (td.ident.name, (i0, p0)) ∈ st.incomplete_types :=
            ilookup_mem _ _ _ hi
          exact hmap td.ident.name i0 p0 hmem hname
        refine ⟨fk id₀ hid (fun i hi' => by
          injection hi' with hi''
          rw [hi''] at hi0
          exact hi0), ?_⟩
        intro n i p hm hnd
        rw [fmap] at hm
        exact hmap n i p hm hnd

/-- The state equation for the incomplete-with-fresh-symbol step of the
pass (used by the incomplete-upgrade development). -/
theorem process_decl_incomplete_eq (ctx : DeclContext) (st : DState)
    (ident : DIdent) (reference : Option Nat) (remaining : List DDecl)
    (hfresh : ilookup st.incomplete_types ident.name = none)
    (hreg : rlookup st.region (Designator.ident ident.name) = none) :
    process_decl ctx st (DDecl.typeDecl ⟨ident, DTypeDef.incomplete reference⟩)
        remaining =
      (⟨⟨st.arena.next + 1,
         aset st.arena.ents st.arena.next
           ⟨Designator.ident ident.name, DEntKind.typeIncomplete,
            some (match find_full_type_definition ident.name remaining with
                  | some full_decl => full_decl.ident.pos
                  | none => ident.pos), []⟩⟩,
        st.region ++ [(Designator.ident ident.name, DRegEntry.single st.arena.next)],
        st.incomplete_types ++ [(ident.name, (st.arena.next, ident.pos))],
        st.diags ++ (match find_full_type_definition ident.name remaining with
                     | some _ => []
                     | none => [DDiag.missingFullType ident.name ident.pos])⟩,
       DDecl.typeDecl ⟨ident, DTypeDef.incomplete (some st.arena.next)⟩) := by
  unfold process_decl
  dsimp only
  rw [hfresh]
  unfold arena_explicit region_add
  dsimp only
  rw [hreg]
  cases hf : find_full_type_definition ident.name remaining <;>
    simp [hf, DEntKind.isOverloadable]

/-- Phase 3 of the incomplete-upgrade development: after the full type has
upgraded the entity in place, processing further declarations that avoid
the designator preserves the scope entry and the upgraded arena entity. -/
theorem go_phase3 (ctx : DeclContext) (d id₀ : Nat) (syms : List Designator)
    (hctx : factoryAvoids d ctx) :
    ∀ (post : List DDecl) (st : DState),
    (∀ x ∈ post, avoids d x) →
    rlookup st.region (Designator.ident d) = some (DRegEntry.single id₀) →
    id₀ < st.arena.next →
    mapAvoidsId d id₀ st →
    (∃ pos imp, alookup st.arena.ents id₀ =
       some ⟨Designator.ident d, DEntKind.typeEnum syms, pos, imp⟩) →
    rlookup (analyze_declarative_part_go ctx st post).1.region
        (Designator.ident d) = some (DRegEntry.single id₀) ∧
    (∃ pos imp, alookup (analyze_declarative_part_go ctx st post).1.arena.ents
        id₀ = some ⟨Designator.ident d, DEntKind.typeEnum syms, pos, imp⟩) := by
  intro post
  induction post with
  | nil =>
    intro st _ hreg _ _ hent
    exact ⟨hreg, hent⟩
  | cons x rest ih =>
    intro st hav hreg hid hmap hent
    simp only [analyze_declarative_part_go]
    obtain ⟨freg, fmap, fnext, fwf, fid⟩ :=
      process_decl_frame ctx d st x rest (hav x (List.mem_cons_self x rest)) hctx
    obtain ⟨farena, fmapAv⟩ := fid id₀ hid hmap
    exact ih (process_decl ctx st x rest).1
      (fun y hy => hav y (List.mem_cons_of_mem x hy))
      (by rw [freg]; exact hreg)
      (Nat.lt_of_lt_of_le hid fnext) fmapAv
      (by rw [farena]; exact hent)

/-- Phase 2 of the incomplete-upgrade development: between the incomplete
declaration and its full declaration, processing declarations that avoid
the designator preserves the incomplete entity's scope and map entries;
the full declaration then upgrades it in place and phase 3 carries the
result to the end of the declarative part. -/
theorem go_phase2 (ctx : DeclContext) (d id₀ : Nat) (ident2 : DIdent)
    (lits : List DEnumLit) (post : List DDecl)
    (hctx : factoryAvoids d ctx)
    (hname2 : ident2.name = d)
    (hlits : ∀ l ∈ lits, l.des ≠ Designator.ident d)
    (hpost : ∀ x ∈ post, avoids d x) :
    ∀ (mid : List DDecl) (st : DState),
    (∀ x ∈ mid, avoids d x) →
    rlookup st.region (Designator.ident d) = some (DRegEntry.single id₀) →
    (∃ p, ilookup st.incomplete_types d = some (id₀, p)) →
    id₀ < st.arena.next →
    mapAvoidsId d id₀ st →
    rlookup (analyze_declarative_part_go ctx st
        (mid ++ DDecl.typeDecl ⟨ident2, DTypeDef.enumeration lits⟩ :: post)).1.region
        (Designator.ident d) = some (DRegEntry.single id₀) ∧
    (∃ pos imp, alookup (analyze_declarative_part_go ctx st
        (mid ++ DDecl.typeDecl ⟨ident2, DTypeDef.enumeration lits⟩ :: post)).1.arena.ents
        id₀ = some ⟨Designator.ident d,
          DEntKind.typeEnum (lits.map DEnumLit.des), pos, imp⟩) := by
  intro mid
  induction mid with
  | nil =>
    intro st _ hreg hp hid hmap
    obtain ⟨p, hp⟩ := hp
    simp only [List.nil_append, analyze_declarative_part_go]
    have hproc : process_decl ctx st
        (DDecl.typeDecl ⟨ident2, DTypeDef.enumeration lits⟩) post =
        ((analyze_enumeration ctx st (some id₀) ident2 lits).1,
         DDecl.typeDecl
           ⟨(analyze_enumeration ctx st (some id₀) ident2 lits).2.1,
            DTypeDef.enumeration
              (analyze_enumeration ctx st (some id₀) ident2 lits).2.2⟩) := by
      unfold process_decl
      dsimp only
      rw [hname2, hp]
      rfl
    rw [hproc]
    obtain ⟨areg, amap, anext, aent⟩ :=
      analyze_enumeration_action ctx d id₀ st ident2 lits hctx hname2 hlits
        hreg hid
    have hmap1 : mapAvoidsId d id₀
        (analyze_enumeration ctx st (some id₀) ident2 lits).1 := by
      intro n i q hm hnd
      rw [amap] at hm
      exact hmap n i q hm hnd
    exact go_phase3 ctx d id₀ (lits.map DEnumLit.des) hctx post _ hpost areg
      anext hmap1 (by
        obtain ⟨imp, himp⟩ := aent
        exact ⟨some ident2.pos, imp, himp⟩)
  | cons x rest ih =>
    intro st hav hreg hp hid hmap
    simp only [List.cons_append, analyze_declarative_part_go]
    obtain ⟨freg, fmap, fnext, fwf, fid⟩ :=
      process_decl_frame ctx d st x
        (rest ++ DDecl.typeDecl ⟨ident2, DTypeDef.enumeration lits⟩ :: post)
        (hav x (List.mem_cons_self x rest)) hctx
    obtain ⟨farena, fmapAv⟩ := fid id₀ hid hmap
    exact ih (process_decl ctx st x
        (rest ++ DDecl.typeDecl ⟨ident2, DTypeDef.enumeration lits⟩ :: post)).1
      (fun y hy => hav y (List.mem_cons_of_mem x hy))
      (by rw [freg]; exact hreg)
      (by obtain ⟨p, hp⟩ := hp; exact ⟨p, by rw [fmap]; exact hp⟩)
      (Nat.lt_of_lt_of_le hid fnext) fmapAv

/-- Phase 1 of the incomplete-upgrade development: processing the
declarations before the incomplete declaration preserves the freshness of
the designator; the incomplete declaration then allocates the entity and
phases 2 and 3 finish the part. -/
theorem go_phase1 (ctx : DeclContext) (d : Nat) (ident1 ident2 : DIdent)
    (reference : Option Nat) (lits : List DEnumLit)
    (mid post : List DDecl)
    (hctx : factoryAvoids d ctx)
    (hname1 : ident1.name = d) (hname2 : ident2.name = d)
    (hmid : ∀ x ∈ mid, avoids d x) (hpost : ∀ x ∈ post, avoids d x)
    (hlits : ∀ l ∈ lits, l.des ≠ Designator.ident d) :
    ∀ (pre : List DDecl) (st : DState),
    (∀ x ∈ pre, avoids d x) →
    mapWF st →
    rlookup st.region (Designator.ident d) = none →
    ilookup st.incomplete_types d = none →
    ∃ id₀,
      rlookup (analyze_declarative_part_go ctx st
          (pre ++ DDecl.typeDecl ⟨ident1, DTypeDef.incomplete reference⟩ ::
            (mid ++ DDecl.typeDecl ⟨ident2, DTypeDef.enumeration lits⟩ ::
              post))).1.region (Designator.ident d) =
        some (DRegEntry.single id₀) ∧
      (∃ pos imp, alookup (analyze_declarative_part_go ctx st
          (pre ++ DDecl.typeDecl ⟨ident1, DTypeDef.incomplete reference⟩ ::
            (mid ++ DDecl.typeDecl ⟨ident2, DTypeDef.enumeration lits⟩ ::
              post))).1.arena.ents id₀ =
        some ⟨Designator.ident d,
          DEntKind.typeEnum (lits.map DEnumLit.des), pos, imp⟩) ∧
      (analyze_declarative_part_go ctx st
          (pre ++ DDecl.typeDecl ⟨ident1, DTypeDef.incomplete reference⟩ ::
            (mid ++ DDecl.typeDecl ⟨ident2, DTypeDef.enumeration lits⟩ ::
              post))).2.get? pre.length =
        some (DDecl.typeDecl ⟨ident1, DTypeDef.incomplete (some id₀)⟩) := by
  intro pre
  induction pre with
  | nil =>
    intro st _ hwf hreg hmapd
    simp only [List.nil_append, analyze_declarative_part_go]
    have hfresh : ilookup st.incomplete_types ident1.name = none := by
      rw [hname1]; exact hmapd
    have hreg1 : rlookup st.region (Designator.ident ident1.name) = none := by
      rw [hname1]; exact hreg
    rw [process_decl_incomplete_eq ctx st ident1 reference _ hfresh hreg1]
    set id₀ := st.arena.next with hid₀
    set st1 : DState :=
      ⟨⟨st.arena.next + 1,
        aset st.arena.ents st.arena.next
          ⟨Designator.ident ident1.name, DEntKind.typeIncomplete,
           some (match find_full_type_definition ident1.name
                   (mid ++ DDecl.typeDecl ⟨ident2, DTypeDef.enumeration lits⟩ ::
                     post) with
                 | some full_decl => full_decl.ident.pos
                 | none => ident1.pos), []⟩⟩,
       st.region ++ [(Designator.ident ident1.name, DRegEntry.single st.arena.next)],
       st.incomplete_types ++ [(ident1.name, (st.arena.next, ident1.pos))],
       st.diags ++ (match find_full_type_definition ident1.name
                      (mid ++ DDecl.typeDecl ⟨ident2, DTypeDef.enumeration lits⟩ ::
                        post) with
                    | some _ => []
                    | none => [DDiag.missingFullType ident1.name ident1.pos])⟩
      with hst1
    have hreg2 : rlookup st1.region (Designator.ident d) =
        some (DRegEntry.single id₀) := by
      show rlookup (st.region ++ _) (Designator.ident d) = _
      rw [rlookup_append, hreg]
      simp [rlookup, hname1]
    have hp2 : ilookup st1.incomplete_types d = some (id₀, ident1.pos) := by
      show ilookup (st.incomplete_types ++ _) d = _
      rw [ilookup_append, hmapd]
      simp [ilookup, hname1]
    have hid2 : id₀ < st1.arena.next := by
      show id₀ < st.arena.next + 1
      omega
    have hmap2 : mapAvoidsId d id₀ st1 := by
      intro n i p hm hnd
      rcases List.mem_append.1 hm with hm1 | hm2
      · have := hwf n i p hm1
        omega
      · simp at hm2
        rw [hname1] at hm2
        exact absurd hm2.1 hnd
    obtain ⟨greg, gent⟩ :=
      go_phase2 ctx d id₀ ident2 lits post hctx hname2 hlits hpost mid st1
        hmid hreg2 ⟨ident1.pos, hp2⟩ hid2 hmap2
    exact ⟨id₀, greg, gent, rfl⟩
  | cons x rest ih =>
    intro st hav hwf hreg hmapd
    simp only [List.cons_append, analyze_declarative_part_go]
    obtain ⟨freg, fmap, fnext, fwf, _⟩ :=
      process_decl_frame ctx d st x _
        (hav x (List.mem_cons_self x rest)) hctx
    obtain ⟨id₀, h1, h2, h3⟩ := ih (process_decl ctx st x _).1
      (fun y hy => hav y (List.mem_cons_of_mem x hy))
      (fwf hwf)
      (by rw [freg]; exact hreg)
      (by rw [fmap]; exact hmapd)
    exact ⟨id₀, h1, h2, by simpa using h3⟩

/-! ## Claim C1 -/

/-- C1: for a declarative part containing exactly one incomplete type
declaration of a designator, followed later in the same list by exactly
one full (enumeration) type declaration of the same designator — every
other declaration, the enumeration's literals, and every implicit
operation avoiding that designator — after `analyze_declarative_part`
completes, the designator's scope entry holds exactly one type entity,
its id is the id originally allocated for the incomplete entity (the id
written into the incomplete declaration's AST reference slot), and its
kind is the kind of the full type declaration. -/
theorem C1_incomplete_upgrade (ctx : DeclContext) (arena0 : DArena)
    (region0 : DRegion) (pre mid post : List DDecl) (ident1 ident2 : DIdent)
    (reference : Option Nat) (lits : List DEnumLit) (d : Nat)
    (hname1 : ident1.name = d) (hname2 : ident2.name = d)
    (hpre : ∀ x ∈ pre, avoids d x) (hmid : ∀ x ∈ mid, avoids d x)
    (hpost : ∀ x ∈ post, avoids d x)
    (hlits : ∀ l ∈ lits, l.des ≠ Designator.ident d)
    (hctx : factoryAvoids d ctx)
    (hreg0 : rlookup region0 (Designator.ident d) = none) :
    ∃ id₀,
      rlookup (analyze_declarative_part ctx arena0 region0
          (pre ++ DDecl.typeDecl ⟨ident1, DTypeDef.incomplete reference⟩ ::
            (mid ++ DDecl.typeDecl ⟨ident2, DTypeDef.enumeration lits⟩ ::
              post))).1.region (Designator.ident d) =
        some (DRegEntry.single id₀) ∧
      (∃ pos imp, alookup (analyze_declarative_part ctx arena0 region0
          (pre ++ DDecl.typeDecl ⟨ident1, DTypeDef.incomplete reference⟩ ::
            (mid ++ DDecl.typeDecl ⟨ident2, DTypeDef.enumeration lits⟩ ::
              post))).1.arena.ents id₀ =
        some ⟨Designator.ident d,
          DEntKind.typeEnum (lits.map DEnumLit.des), pos, imp⟩) ∧
      (analyze_declarative_part ctx arena0 region0
          (pre ++ DDecl.typeDecl ⟨ident1, DTypeDef.incomplete reference⟩ ::
            (mid ++ DDecl.typeDecl ⟨ident2, DTypeDef.enumeration lits⟩ ::
              post))).2.get? pre.length =
        some (DDecl.typeDecl ⟨ident1, DTypeDef.incomplete (some id₀)⟩) :=
  go_phase1 ctx d ident1 ident2 reference lits mid post hctx hname1 hname2
    hmid hpost hlits pre ⟨arena0, region0, [], []⟩ hpre
    (fun _ _ _ hm => absurd hm (List.not_mem_nil _)) hreg0 rfl

/-- Witness for C1: symbol `1` is declared incomplete at position `10`
and completed by a one-literal enumeration at position `20`, surrounded
by unrelated declarations. -/
theorem C1_incomplete_upgrade_witness :
    (∀ x ∈ c1pre, avoids 1 x) ∧ (∀ x ∈ c1mid, avoids 1 x) ∧
    (∀ x ∈ c1post, avoids 1 x) ∧
    (∀ l ∈ c1lits, l.des ≠ Designator.ident 1) ∧
    factoryAvoids 1 dctx0 ∧
    rlookup ([] : DRegion) (Designator.ident 1) = none ∧
    (∃ id₀,
      rlookup (analyze_declarative_part dctx0 ⟨0, []⟩ []
          (c1pre ++ DDecl.typeDecl ⟨⟨1, 10, none⟩, DTypeDef.incomplete none⟩ ::
            (c1mid ++ DDecl.typeDecl ⟨⟨1, 20, none⟩, DTypeDef.enumeration c1lits⟩ ::
              c1post))).1.region (Designator.ident 1) =
        some (DRegEntry.single id₀) ∧
      (∃ pos imp, alookup (analyze_declarative_part dctx0 ⟨0, []⟩ []
          (c1pre ++ DDecl.typeDecl ⟨⟨1, 10, none⟩, DTypeDef.incomplete none⟩ ::
            (c1mid ++ DDecl.typeDecl ⟨⟨1, 20, none⟩, DTypeDef.enumeration c1lits⟩ ::
              c1post))).1.arena.ents id₀ =
        some ⟨Designator.ident 1,
          DEntKind.typeEnum (c1lits.map DEnumLit.des), pos, imp⟩) ∧
      (analyze_declarative_part dctx0 ⟨0, []⟩ []
          (c1pre ++ DDecl.typeDecl ⟨⟨1, 10, none⟩, DTypeDef.incomplete none⟩ ::
            (c1mid ++ DDecl.typeDecl ⟨⟨1, 20, none⟩, DTypeDef.enumeration c1lits⟩ ::
              c1post))).2.get? c1pre.length =
        some (DDecl.typeDecl ⟨⟨1, 10, none⟩, DTypeDef.incomplete (some id₀)⟩)) :=
  have hpre : ∀ x ∈ c1pre, avoids 1 x := fun x hx => by
    simp only [c1pre, List.mem_singleton] at hx
    subst hx
    exact ⟨by decide, trivial⟩
  have hmid : ∀ x ∈ c1mid, avoids 1 x := fun x hx => by
    simp only [c1mid, List.mem_singleton] at hx
    subst hx
    exact ⟨by decide, by decide⟩
  have hpost : ∀ x ∈ c1post, avoids 1 x := fun x hx => by
    simp only [c1post, List.mem_singleton] at hx
    subst hx
    exact ⟨by decide, trivial⟩
  have hlits : ∀ l ∈ c1lits, l.des ≠ Designator.ident 1 := by decide
  have hctx : factoryAvoids 1 dctx0 :=
    fun _ _ hx => absurd hx (List.not_mem_nil _)
  ⟨hpre, hmid, hpost, hlits, hctx, rfl,
   C1_incomplete_upgrade dctx0 ⟨0, []⟩ [] c1pre c1mid c1post
     ⟨1, 10, none⟩ ⟨1, 20, none⟩ none c1lits 1 rfl rfl
     hpre hmid hpost hlits hctx rfl⟩

/-! ## Substitution lemmas for package instantiation -/

theorem except_map_ok {ε α β : Type} {f : α → β} {x : Except ε α} {y : β}
    (h : x.map f = Except.ok y) : ∃ a, x = Except.ok a ∧ y = f a := by
  cases x with
  | error e => simp [Except.map] at h
  | ok a =>
    simp only [Except.map] at h
    exact ⟨a, rfl, (Except.ok.inj h).symm⟩

theorem fa_append {α β : Type} {R : α → β → Prop} :
    ∀ {l₁ l₃ : List α} {l₂ l₄ : List β}, List.Forall₂ R l₁ l₂ →
      List.Forall₂ R l₃ l₄ → List.Forall₂ R (l₁ ++ l₃) (l₂ ++ l₄) := by
  intro l₁ l₃ l₂ l₄ h1 h2
  induction h1 with
  | nil => simpa using h2
  | cons hr _ ih => exact List.Forall₂.cons hr ih

theorem map_type_ent_refs_false {mapping : PMap} {t u : PEnt}
    (h : map_type_ent mapping t = Except.ok u) :
    ref_mapped mapping (false, t) (false, u) := by
  unfold map_type_ent at h
  refine ⟨rfl, ?_⟩
  split at h
  next a hl =>
    split at h
    · exact Or.inl ⟨a, hl, (Except.ok.inj h).symm⟩
    · exact Except.noConfusion h
  next hl => exact Or.inr ⟨hl, (Except.ok.inj h).symm⟩

theorem map_type_ent_refs_true {mapping : PMap} {t u : PEnt}
    (h : map_type_ent mapping t = Except.ok u) :
    ref_mapped mapping (true, t) (true, pbase u) := by
  unfold map_type_ent at h
  refine ⟨rfl, ?_⟩
  split at h
  next a hl =>
    split at h
    · exact Or.inl ⟨a, hl, congrArg pbase (Except.ok.inj h).symm⟩
    · exact Except.noConfusion h
  next hl => exact Or.inr ⟨hl, congrArg pbase (Except.ok.inj h).symm⟩

theorem map_array_indexes_refs {mapping : PMap} :
    ∀ {idxs out}, map_array_indexes mapping idxs = Except.ok out →
      List.Forall₂ (ref_mapped mapping) (index_refs idxs) (index_refs out) := by
  intro idxs
  induction idxs with
  | nil =>
    intro out h
    simp only [map_array_indexes] at h
    obtain rfl := Except.ok.inj h
    exact List.Forall₂.nil
  | cons hd rest ih =>
    intro out h
    cases hd with
    | none =>
      simp only [map_array_indexes] at h
      obtain ⟨r, hr, rfl⟩ := except_map_ok h
      simp only [index_refs]
      exact ih hr
    | some t =>
      simp only [map_array_indexes] at h
      split at h
      · exact Except.noConfusion h
      next u hm =>
        obtain ⟨r, hr, rfl⟩ := except_map_ok h
        simp only [index_refs]
        exact List.Forall₂.cons (map_type_ent_refs_true hm) (ih hr)

/-- The simultaneous substitution statement for the whole instantiation
family: whenever a mapper succeeds, the tagged reference lists collected
before and after are related pointwise by `ref_mapped`. -/
theorem subst_all : ∀ (fuel : Nat) (mapping : PMap),
    (∀ nid e out, instantiate fuel mapping nid e = Except.ok out →
       List.Forall₂ (ref_mapped mapping) (ent_refs fuel e) (ent_refs fuel out.1)) ∧
    (∀ nid es out, instantiate_list fuel mapping nid es = Except.ok out →
       List.Forall₂ (ref_mapped mapping) (ent_refs_list fuel es)
         (ent_refs_list fuel out.1)) ∧
    (∀ nid k out, map_kind fuel mapping nid k = Except.ok out →
       List.Forall₂ (ref_mapped mapping) (kind_refs fuel k) (kind_refs fuel out.1)) ∧
    (∀ nid t out, map_type fuel mapping nid t = Except.ok out →
       List.Forall₂ (ref_mapped mapping) (type_refs fuel t) (type_refs fuel out.1)) ∧
    (∀ nid es out, instantiate_record_elems fuel mapping nid es = Except.ok out →
       List.Forall₂ (ref_mapped mapping) (ent_refs_list fuel es)
         (ent_refs_list fuel out.1)) ∧
    (∀ nid ov out, map_overloaded fuel mapping nid ov = Except.ok out →
       List.Forall₂ (ref_mapped mapping) (overloaded_refs fuel ov)
         (overloaded_refs fuel out.1)) ∧
    (∀ nid s out, map_signature fuel mapping nid s = Except.ok out →
       List.Forall₂ (ref_mapped mapping) (sig_refs fuel s) (sig_refs fuel out.1)) ∧
    (∀ nid fs out, instantiate_formals fuel mapping nid fs = Except.ok out →
       List.Forall₂ (ref_mapped mapping) (ent_refs_list fuel fs)
         (ent_refs_list fuel out.1)) := by
  intro fuel
  induction fuel with
  | zero =>
    intro mapping
    refine ⟨?_, ?_, ?_, ?_, ?_, ?_, ?_, ?_⟩ <;> intro nid x out h
    · simp [instantiate] at h
    · simp [instantiate_list] at h
    · simp [map_kind] at h
    · simp [map_type] at h
    · simp [instantiate_record_elems] at h
    · simp [map_overloaded] at h
    · simp [map_signature] at h
    · simp [instantiate_formals] at h
  | succ f ih =>
    intro mapping
    obtain ⟨ihA, ihL, ihK, ihT, ihR, ihO, ihS, ihF⟩ := ih mapping
    refine ⟨?_, ?_, ?_, ?_, ?_, ?_, ?_, ?_⟩
    · -- instantiate
      intro nid e out h
      simp only [instantiate] at h
      split at h
      · exact Except.noConfusion h
      next kind nid1 heq =>
        split at h
        · exact Except.noConfusion h
        next impls nid2 heq2 =>
          obtain rfl := Except.ok.inj h
          simp only [ent_refs, PEnt.kind, PEnt.implicits]
          exact fa_append (ihK nid e.kind (kind, nid1) heq)
            (ihL (nid1+1) e.implicits (impls, nid2) heq2)
    · -- instantiate_list
      intro nid es out h
      cases es with
      | nil =>
        simp only [instantiate_list] at h
        obtain rfl := Except.ok.inj h
        simp only [ent_refs_list]
        exact List.Forall₂.nil
      | cons e es =>
        simp only [instantiate_list] at h
        split at h
        · exact Except.noConfusion h
        next i nid1 heq =>
          split at h
          · exact Except.noConfusion h
          next is nid2 heq2 =>
            obtain rfl := Except.ok.inj h
            simp only [ent_refs_list]
            exact fa_append (ihA nid e (i, nid1) heq) (ihL nid1 es (is, nid2) heq2)
    · -- map_kind
      intro nid k out h
      cases k
      next cls tm =>
        simp only [map_kind] at h
        obtain ⟨u, hm, rfl⟩ := except_map_ok h
        simp only [kind_refs]
        exact List.Forall₂.cons (map_type_ent_refs_false hm) List.Forall₂.nil
      next base tm =>
        simp only [map_kind] at h
        split at h
        · exact Except.noConfusion h
        next obj nid1 heq =>
          split at h
          · obtain ⟨u, hm, rfl⟩ := except_map_ok h
            simp only [kind_refs]
            exact fa_append (ihA nid base (obj, nid1) heq)
              (List.Forall₂.cons (map_type_ent_refs_false hm) List.Forall₂.nil)
          · exact Except.noConfusion h
      next sub =>
        cases sub with
        | mk tm =>
          simp only [map_kind, map_subtype] at h
          obtain ⟨s, hs, rfl⟩ := except_map_ok h
          obtain ⟨u, hm, rfl⟩ := except_map_ok hs
          simp only [kind_refs]
          exact List.Forall₂.cons (map_type_ent_refs_false hm) List.Forall₂.nil
      next t =>
        simp only [map_kind] at h
        obtain ⟨u, hm, rfl⟩ := except_map_ok h
        simp only [kind_refs]
        exact List.Forall₂.cons (map_type_ent_refs_false hm) List.Forall₂.nil
      next region =>
        simp only [map_kind] at h
        split at h
        · exact Except.noConfusion h
        next r1 nid1 heq =>
          obtain rfl := Except.ok.inj h
          simp only [kind_refs]
          exact List.Forall₂.nil
      next t =>
        simp only [map_kind] at h
        obtain ⟨u, hm, rfl⟩ := except_map_ok h
        simp only [kind_refs]
        exact List.Forall₂.cons (map_type_ent_refs_false hm) List.Forall₂.nil
      next ov =>
        simp only [map_kind] at h
        split at h
        · exact Except.noConfusion h
        next o nid1 heq =>
          obtain rfl := Except.ok.inj h
          simp only [kind_refs]
          exact ihO nid ov (o, nid1) heq
      next t =>
        simp only [map_kind] at h
        split at h
        · exact Except.noConfusion h
        next t1 nid1 heq =>
          obtain rfl := Except.ok.inj h
          simp only [kind_refs]
          exact ihT nid t (t1, nid1) heq
      next sub =>
        cases sub with
        | mk tm =>
          simp only [map_kind, map_subtype] at h
          obtain ⟨s, hs, rfl⟩ := except_map_ok h
          obtain ⟨u, hm, rfl⟩ := except_map_ok hs
          simp only [kind_refs]
          exact List.Forall₂.cons (map_type_ent_refs_false hm) List.Forall₂.nil
      next =>
        simp only [map_kind] at h
        obtain rfl := Except.ok.inj h
        simp only [kind_refs]
        exact List.Forall₂.nil
      next obj =>
        cases obj with
        | mk cls mode sub hd =>
          cases sub with
          | mk tm =>
            simp only [map_kind, map_object, map_subtype] at h
            obtain ⟨o, ho, rfl⟩ := except_map_ok h
            obtain ⟨s, hs, rfl⟩ := except_map_ok ho
            obtain ⟨u, hm, rfl⟩ := except_map_ok hs
            simp only [kind_refs]
            exact List.Forall₂.cons (map_type_ent_refs_false hm) List.Forall₂.nil
      next otyp =>
        cases otyp with
        | none =>
          simp only [map_kind] at h
          obtain rfl := Except.ok.inj h
          simp only [kind_refs]
          exact List.Forall₂.nil
        | some t =>
          simp only [map_kind] at h
          obtain ⟨u, hm, rfl⟩ := except_map_ok h
          simp only [kind_refs]
          exact List.Forall₂.cons (map_type_ent_refs_true hm) List.Forall₂.nil
      next t =>
        simp only [map_kind] at h
        obtain ⟨u, hm, rfl⟩ := except_map_ok h
        simp only [kind_refs]
        exact List.Forall₂.cons (map_type_ent_refs_false hm) List.Forall₂.nil
      next sub =>
        cases sub with
        | mk tm =>
          simp only [map_kind, map_subtype] at h
          obtain ⟨s, hs, rfl⟩ := except_map_ok h
          obtain ⟨u, hm, rfl⟩ := except_map_ok hs
          simp only [kind_refs]
          exact List.Forall₂.cons (map_type_ent_refs_false hm) List.Forall₂.nil
      next =>
        simp only [map_kind] at h
        obtain rfl := Except.ok.inj h
        simp only [kind_refs]
        exact List.Forall₂.nil
      next dsn =>
        cases dsn with
        | packageInstance region =>
          simp only [map_kind] at h
          split at h
          · exact Except.noConfusion h
          next r1 nid1 heq =>
            obtain rfl := Except.ok.inj h
            simp only [kind_refs]
            exact List.Forall₂.nil
        | entityD => simp [map_kind] at h
        | configuration => simp [map_kind] at h
        | package => simp [map_kind] at h
        | uninstPackage => simp [map_kind] at h
        | context => simp [map_kind] at h
    · -- map_type
      intro nid t out h
      cases t
      next indexes elem =>
        simp only [map_type] at h
        split at h
        · exact Except.noConfusion h
        next mapped heq =>
          obtain ⟨u, hm, rfl⟩ := except_map_ok h
          simp only [type_refs]
          exact fa_append (map_array_indexes_refs heq)
            (List.Forall₂.cons (map_type_ent_refs_false hm) List.Forall₂.nil)
      next syms =>
        simp only [map_type] at h
        obtain rfl := Except.ok.inj h
        simp only [type_refs]
        exact List.Forall₂.nil
      next =>
        simp only [map_type] at h
        obtain rfl := Except.ok.inj h
        simp only [type_refs]
        exact List.Forall₂.nil
      next =>
        simp only [map_type] at h
        obtain rfl := Except.ok.inj h
        simp only [type_refs]
        exact List.Forall₂.nil
      next =>
        simp only [map_type] at h
        obtain rfl := Except.ok.inj h
        simp only [type_refs]
        exact List.Forall₂.nil
      next sub =>
        cases sub with
        | mk tm =>
          simp only [map_type, map_subtype] at h
          obtain ⟨s, hs, rfl⟩ := except_map_ok h
          obtain ⟨u, hm, rfl⟩ := except_map_ok hs
          simp only [type_refs]
          exact List.Forall₂.cons (map_type_ent_refs_false hm) List.Forall₂.nil
      next elems =>
        simp only [map_type] at h
        split at h
        · exact Except.noConfusion h
        next es1 nid1 heq =>
          obtain rfl := Except.ok.inj h
          simp only [type_refs]
          exact ihR nid elems (es1, nid1) heq
      next sub =>
        cases sub with
        | mk tm =>
          simp only [map_type, map_subtype] at h
          obtain ⟨s, hs, rfl⟩ := except_map_ok h
          obtain ⟨u, hm, rfl⟩ := except_map_ok hs
          simp only [type_refs]
          exact List.Forall₂.cons (map_type_ent_refs_false hm) List.Forall₂.nil
      next region bodyPos =>
        simp only [map_type] at h
        split at h
        · exact Except.noConfusion h
        next r1 nid1 heq =>
          obtain rfl := Except.ok.inj h
          simp only [type_refs]
          exact List.Forall₂.nil
      next =>
        simp only [map_type] at h
        obtain rfl := Except.ok.inj h
        simp only [type_refs]
        exact List.Forall₂.nil
      next typ =>
        simp only [map_type] at h
        obtain ⟨u, hm, rfl⟩ := except_map_ok h
        simp only [type_refs]
        exact List.Forall₂.cons (map_type_ent_refs_false hm) List.Forall₂.nil
      next u =>
        simp only [map_type] at h
        obtain rfl := Except.ok.inj h
        simp only [type_refs]
        exact List.Forall₂.nil
      next =>
        simp only [map_type] at h
        obtain rfl := Except.ok.inj h
        simp only [type_refs]
        exact List.Forall₂.nil
      next =>
        simp only [map_type] at h
        obtain rfl := Except.ok.inj h
        simp only [type_refs]
        exact List.Forall₂.nil
    · -- instantiate_record_elems
      intro nid es out h
      cases es with
      | nil =>
        simp only [instantiate_record_elems] at h
        obtain rfl := Except.ok.inj h
        simp only [ent_refs_list]
        exact List.Forall₂.nil
      | cons e es =>
        simp only [instantiate_record_elems] at h
        split at h
        · exact Except.noConfusion h
        next i nid1 heq =>
          split at h
          · split at h
            · exact Except.noConfusion h
            next is nid2 heq2 =>
              obtain rfl := Except.ok.inj h
              simp only [ent_refs_list]
              exact fa_append (ihA nid e (i, nid1) heq)
                (ihR nid1 es (is, nid2) heq2)
          · exact Except.noConfusion h
    · -- map_overloaded
      intro nid ov out h
      cases ov
      next s =>
        simp only [map_overloaded] at h
        split at h
        · exact Except.noConfusion h
        next s1 nid1 heq =>
          obtain rfl := Except.ok.inj h
          simp only [overloaded_refs]
          exact ihS nid s (s1, nid1) heq
      next s =>
        simp only [map_overloaded] at h
        split at h
        · exact Except.noConfusion h
        next s1 nid1 heq =>
          obtain rfl := Except.ok.inj h
          simp only [overloaded_refs]
          exact ihS nid s (s1, nid1) heq
      next s =>
        simp only [map_overloaded] at h
        split at h
        · exact Except.noConfusion h
        next s1 nid1 heq =>
          obtain rfl := Except.ok.inj h
          simp only [overloaded_refs]
          exact ihS nid s (s1, nid1) heq
      next s =>
        simp only [map_overloaded] at h
        split at h
        · exact Except.noConfusion h
        next s1 nid1 heq =>
          obtain rfl := Except.ok.inj h
          simp only [overloaded_refs]
          exact ihS nid s (s1, nid1) heq
      next e =>
        simp only [map_overloaded] at h
        split at h
        · exact Except.noConfusion h
        next i nid1 heq =>
          split at h
          · obtain rfl := Except.ok.inj h
            simp only [overloaded_refs]
            exact ihA nid e (i, nid1) heq
          · exact Except.noConfusion h
    · -- map_signature
      intro nid s out h
      cases s with
      | mk ftyp formals ret =>
        cases ret with
        | some rt =>
          simp only [map_signature] at h
          split at h
          · exact Except.noConfusion h
          next fs1 nid1 heq =>
            obtain ⟨u, hm, rfl⟩ := except_map_ok h
            simp only [sig_refs]
            exact fa_append (ihF nid formals (fs1, nid1) heq)
              (List.Forall₂.cons (map_type_ent_refs_false hm) List.Forall₂.nil)
        | none =>
          simp only [map_signature] at h
          split at h
          · exact Except.noConfusion h
          next fs1 nid1 heq =>
            obtain rfl := Except.ok.inj h
            simp only [sig_refs]
            exact fa_append (ihF nid formals (fs1, nid1) heq) List.Forall₂.nil
    · -- instantiate_formals
      intro nid fs out h
      cases fs with
      | nil =>
        simp only [instantiate_formals] at h
        obtain rfl := Except.ok.inj h
        simp only [ent_refs_list]
        exact List.Forall₂.nil
      | cons e es =>
        simp only [instantiate_formals] at h
        split at h
        · exact Except.noConfusion h
        next i nid1 heq =>
          split at h
          · split at h
            · exact Except.noConfusion h
            next is nid2 heq2 =>
              obtain rfl := Except.ok.inj h
              simp only [ent_refs_list]
              exact fa_append (ihA nid e (i, nid1) heq)
                (ihF nid1 es (is, nid2) heq2)
          · exact Except.noConfusion h

theorem flattenNamed_append : ∀ (l l' : List PNamed),
    flattenNamed (l ++ l') = flattenNamed l ++ flattenNamed l' := by
  intro l l'
  induction l with
  | nil => rfl
  | cons n rest ih =>
    cases n with
    | single e => simp [flattenNamed, ih]
    | overloadedN es => simp [flattenNamed, ih]

theorem flattenNamed_mem_map {i e' : PEnt} (g : PNamed → PNamed)
    (hg : ∀ n, ∀ x ∈ flattenNamed [g n], x ∈ flattenNamed [n] ∨ x = i) :
    ∀ acc, e' ∈ flattenNamed (List.map g acc) →
      e' ∈ flattenNamed acc ∨ e' = i := by
  intro acc
  induction acc with
  | nil => intro h; exact Or.inl h
  | cons n rest ih =>
    intro h
    have hsplit : flattenNamed (List.map g (n :: rest)) =
        flattenNamed [g n] ++ flattenNamed (List.map g rest) := by
      rw [List.map_cons]
      have hcons : g n :: List.map g rest = [g n] ++ List.map g rest := rfl
      rw [hcons, flattenNamed_append]
    rw [hsplit] at h
    have hjoin : flattenNamed (n :: rest) = flattenNamed [n] ++ flattenNamed rest := by
      have hcons : n :: rest = [n] ++ rest := rfl
      rw [hcons, flattenNamed_append]
    rcases List.mem_append.1 h with h1 | h2
    · rcases hg n e' h1 with h3 | h3
      · exact Or.inl (by rw [hjoin]; exact List.mem_append.2 (Or.inl h3))
      · exact Or.inr h3
    · rcases ih h2 with h3 | h3
      · exact Or.inl (by rw [hjoin]; exact List.mem_append.2 (Or.inr h3))
      · exact Or.inr h3

theorem region_add_entities_mem {acc : List PNamed} {i e' : PEnt}
    (h : e' ∈ flattenNamed (region_add_entities acc i)) :
    e' ∈ flattenNamed acc ∨ e' = i := by
  unfold region_add_entities at h
  split at h
  · refine flattenNamed_mem_map _ ?_ acc h
    intro n x hx
    split at hx
    · cases n with
      | single e => exact Or.inl hx
      | overloadedN es =>
        split at hx
        · next es2 heq2 =>
            injection heq2 with he
            subst he
            split at hx
            · rcases (show x ∈ es ∨ x = i by simpa [flattenNamed] using hx) with h3 | h3
              · exact Or.inl (by simpa [flattenNamed] using h3)
              · exact Or.inr h3
            · exact Or.inl hx
        · exact Or.inl hx
    · exact Or.inl hx
  · rw [flattenNamed_append] at h
    rcases List.mem_append.1 h with h1 | h2
    · exact Or.inl h1
    · right
      split at h2
      · simpa [flattenNamed] using h2
      · simpa [flattenNamed] using h2

/-- Every member of an instantiated region is the instantiated image of a
member of the uninstantiated region (members whose scope insertion
collides with a signature duplicate are dropped, so only this direction
holds). -/
theorem region_members_all : ∀ (fuel : Nat) (mapping : PMap),
    (∀ nid ns acc out, map_region_entities fuel mapping nid ns acc = Except.ok out →
       ∀ e' ∈ flattenNamed out.1, e' ∈ flattenNamed acc ∨
         ∃ e, e ∈ flattenNamed ns ∧ ∃ g nid0 nid1, g < fuel ∧
           instantiate g mapping nid0 e = Except.ok (e', nid1)) ∧
    (∀ nid es acc out, map_region_group fuel mapping nid es acc = Except.ok out →
       ∀ e' ∈ flattenNamed out.1, e' ∈ flattenNamed acc ∨
         ∃ e, e ∈ es ∧ ∃ g nid0 nid1, g < fuel ∧
           instantiate g mapping nid0 e = Except.ok (e', nid1)) ∧
    (∀ nid reg out, map_region fuel mapping nid reg = Except.ok out →
       ∀ e' ∈ flattenNamed out.1.entities, ∃ e, e ∈ flattenNamed reg.entities ∧
         ∃ g nid0 nid1, g < fuel ∧
           instantiate g mapping nid0 e = Except.ok (e', nid1)) := by
  intro fuel
  induction fuel with
  | zero =>
    intro mapping
    refine ⟨?_, ?_, ?_⟩
    · intro nid ns acc out h; simp [map_region_entities] at h
    · intro nid es acc out h; simp [map_region_group] at h
    · intro nid reg out h; simp [map_region] at h
  | succ f ih =>
    intro mapping
    obtain ⟨ihE, ihG, ihR⟩ := ih mapping
    refine ⟨?_, ?_, ?_⟩
    · intro nid ns acc out h e' hm
      cases ns with
      | nil =>
        simp only [map_region_entities] at h
        obtain rfl := Except.ok.inj h
        exact Or.inl hm
      | cons n ns =>
        cases n with
        | single e =>
          simp only [map_region_entities] at h
          split at h
          · exact Except.noConfusion h
          next i nid1 heq =>
            rcases ihE nid1 ns (region_add_entities acc i) out h e' hm with
              h1 | ⟨e2, he2, g, n0, n1, hg, hinst⟩
            · rcases region_add_entities_mem h1 with h2 | h2
              · exact Or.inl h2
              · subst h2
                exact Or.inr ⟨e, List.mem_cons_self e (flattenNamed ns),
                  f, nid, nid1, Nat.lt_succ_self f, heq⟩
            · exact Or.inr ⟨e2, List.mem_cons_of_mem e he2,
                g, n0, n1, Nat.lt_succ_of_lt hg, hinst⟩
        | overloadedN es =>
          simp only [map_region_entities] at h
          split at h
          · exact Except.noConfusion h
          next acc1 nid1 heq =>
            rcases ihE nid1 ns acc1 out h e' hm with
              h1 | ⟨e2, he2, g, n0, n1, hg, hinst⟩
            · rcases ihG nid es acc (acc1, nid1) heq e' h1 with
                h2 | ⟨e2, he2, g, n0, n1, hg, hinst⟩
              · exact Or.inl h2
              · exact Or.inr ⟨e2, List.mem_append.2 (Or.inl he2),
                  g, n0, n1, Nat.lt_succ_of_lt hg, hinst⟩
            · exact Or.inr ⟨e2, List.mem_append.2 (Or.inr he2),
                g, n0, n1, Nat.lt_succ_of_lt hg, hinst⟩
    · intro nid es acc out h e' hm
      cases es with
      | nil =>
        simp only [map_region_group] at h
        obtain rfl := Except.ok.inj h
        exact Or.inl hm
      | cons e es =>
        simp only [map_region_group] at h
        split at h
        · exact Except.noConfusion h
        next i nid1 heq =>
          rcases ihG nid1 es (region_add_entities acc i) out h e' hm with
            h1 | ⟨e2, he2, g, n0, n1, hg, hinst⟩
          · rcases region_add_entities_mem h1 with h2 | h2
            · exact Or.inl h2
            · subst h2
              exact Or.inr ⟨e, List.mem_cons_self e es,
                f, nid, nid1, Nat.lt_succ_self f, heq⟩
          · exact Or.inr ⟨e2, List.mem_cons_of_mem e he2,
              g, n0, n1, Nat.lt_succ_of_lt hg, hinst⟩
    · intro nid reg out h e' hm
      cases reg with
      | mk entities rkind =>
        simp only [map_region] at h
        split at h
        · exact Except.noConfusion h
        next inst nid1 heq =>
          obtain rfl := Except.ok.inj h
          rcases ihE nid entities [] (inst, nid1) heq e' hm with
            h1 | ⟨e2, he2, g, n0, n1, hg, hinst⟩
          · exact absurd h1 (List.not_mem_nil e')
          · exact ⟨e2, he2, g, n0, n1, Nat.lt_succ_of_lt hg, hinst⟩

/-! ## Claim C2 -/

/-- C2 counterexample: with the type generic `U` (id 5) mapped to the
subtype `natural` (id 7, base type `integer` id 8), mapping the array
kind `array (U) of U` stores the base type `integer` — not the actual
`natural` itself — at the index position, while the element position
receives `natural`: the embedded reference with `U`'s id at the index
position is not replaced by the actual `A`. -/
theorem C2_counterexample :
    plookup pMapU pU.id = some pNatural ∧
    map_kind 2 pMapU 0 pArrKind =
      Except.ok (PKind.typeK (PType.array [some pInt] pNatural), 0) ∧
    pInt.id ≠ pNatural.id := by
  refine ⟨by simp [plookup, pMapU, pU, PEnt.id], ?_, by decide⟩
  simp [map_kind, map_type, map_array_indexes, map_type_ent, pArrKind,
    pMapU, pU, pNatural, pInt, plookup, isTypeEnt, pbase, PEnt.id,
    PEnt.kind, Except.map]

/-- C2 (amended): for every generic mapping and every entity copied by a
successful `instantiate`, the embedded type references collected from the
instantiated copy correspond pointwise to those of the uninstantiated
entity: a reference whose id is in the mapping is replaced by the mapped
actual and a reference whose id is not in the mapping passes through
unchanged — except at the base-type positions (array index types and
loop-parameter types), where the base type of that result is stored
instead of the result itself; and every member of a region rewritten by
`map_region` is the instantiated copy of a member of the original
region. -/
theorem C2_substitution (fuel : Nat) (mapping : PMap) :
    (∀ nid nid' e e', instantiate fuel mapping nid e = Except.ok (e', nid') →
       List.Forall₂ (ref_mapped mapping) (ent_refs fuel e) (ent_refs fuel e')) ∧
    (∀ nid nid' reg reg', map_region fuel mapping nid reg = Except.ok (reg', nid') →
       ∀ e' ∈ flattenNamed reg'.entities, ∃ e, e ∈ flattenNamed reg.entities ∧
         ∃ g nid0 nid1, g < fuel ∧
           instantiate g mapping nid0 e = Except.ok (e', nid1)) :=
  ⟨fun nid nid' e e' h => (subst_all fuel mapping).1 nid e (e', nid') h,
   fun nid nid' reg reg' h =>
     (region_members_all fuel mapping).2.2 nid reg (reg', nid') h⟩

/-- Witness for C2: instantiating the array-kinded entity under
`U → natural` succeeds, and the collected references of the copy are
pointwise `ref_mapped`-related to the original's. -/
theorem C2_substitution_witness :
    instantiate 3 pMapU 0 c2ent = Except.ok (c2inst, 1) ∧
    List.Forall₂ (ref_mapped pMapU) (ent_refs 3 c2ent) (ent_refs 3 c2inst) :=
  have h : instantiate 3 pMapU 0 c2ent = Except.ok (c2inst, 1) := by
    simp [instantiate, instantiate_list, map_kind, map_type,
      map_array_indexes, map_type_ent, c2ent, c2inst, pArrKind, pMapU,
      pU, pNatural, pInt, plookup, isTypeEnt, pbase, PEnt.id, PEnt.kind,
      PEnt.implicits, PEnt.designator, PEnt.declPos, Except.map]
  ⟨h, (C2_substitution 3 pMapU).1 0 1 c2ent c2inst h⟩

end Vhdl
